import Mathlib

/-
Verification of the reconciliation and merge engine of `data-scraper.py`.

Tables are modelled as a list of column names together with positionally
aligned rows; a cell value is `Option String`, where `none` models a pandas
missing value (NaN) and `some s` a string cell.  All column access in the
source goes through labels, modelled by `colIdx`/`cell` below.
-/

namespace DataScraper

/-- A cell value: `none` models pandas NaN, `some s` a text cell. -/
abbrev Val := Option String

/-- A pandas DataFrame with string cells: named columns and positional rows. -/
structure Table where
  cols : List String
  rows : List (List Val)
deriving DecidableEq, Repr

/-- Index of the first column with the given name (pandas label lookup). -/
def colIdx : List String → String → Option Nat
  | [], _ => none
  | c :: cs, x => if c = x then some 0 else (colIdx cs x).map (· + 1)

/-- The value of row `r` at the column labelled `c` (NaN when absent). -/
def cell (cols : List String) (r : List Val) (c : String) : Val :=
  match colIdx cols c with
  | some i => r.getD i none
  | none => none

/-- Well-formedness: every row is positionally aligned with the header. -/
def Table.WF (t : Table) : Prop := ∀ r ∈ t.rows, r.length = t.cols.length

instance (t : Table) : Decidable t.WF := by
  unfold Table.WF; infer_instance

/-! ### Character-level utilities

Kernel-computable stand-ins for the Python string operations the script
uses (`.strip()`, `.upper()`, `.endswith()`, string `<`). -/

def asciiWhitespace (c : Char) : Bool :=
  c.toNat = 32 || c.toNat = 9 || c.toNat = 10 || c.toNat = 13 || c.toNat = 11 || c.toNat = 12

/-- Python `str.strip()`: whitespace removed from both ends. -/
def pyStrip (s : String) : String :=
  ⟨((s.data.dropWhile asciiWhitespace).reverse.dropWhile asciiWhitespace).reverse⟩

def upperChar (c : Char) : Char :=
  if 97 ≤ c.toNat ∧ c.toNat ≤ 122 then Char.ofNat (c.toNat - 32) else c

/-- Python `str.upper()` on the ASCII range. -/
def upperStr (s : String) : String := ⟨s.data.map upperChar⟩

/-- Python `str.endswith`. -/
def strEndsWith (s suff : String) : Bool := suff.data.isSuffixOf s.data

/-- Lexicographic comparison of code points, as Python string `<=`. -/
def lexLeChars : List Char → List Char → Bool
  | [], _ => true
  | _ :: _, [] => false
  | a :: as, b :: bs =>
    if a.toNat < b.toNat then true
    else if b.toNat < a.toNat then false
    else lexLeChars as bs

def lexLe (a b : String) : Bool := lexLeChars a.data b.data

/-! ### A stable, kernel-computable sort -/

def insertLe {α : Type} (le : α → α → Bool) (a : α) : List α → List α
  | [] => [a]
  | b :: bs => if le a b then a :: b :: bs else b :: insertLe le a bs

/-- Stable insertion sort: an earlier element precedes later equal ones. -/
def sortLe {α : Type} (le : α → α → Bool) : List α → List α
  | [] => []
  | a :: as => insertLe le a (sortLe le as)

/-! ### DataFrame operations -/

/-- `df[c] = f(row)`: overwrite the column when the label exists, else append
    it on the right. -/
def setColF (t : Table) (c : String) (f : List Val → Val) : Table :=
  match colIdx t.cols c with
  | some i => ⟨t.cols, t.rows.map fun r => r.set i (f r)⟩
  | none => ⟨t.cols ++ [c], t.rows.map fun r => r ++ [f r]⟩

/-- `df[c] = v` for a constant `v`. -/
def setConst (t : Table) (c : String) (v : Val) : Table := setColF t c (fun _ => v)

/-- One row of `df.drop(columns=[n])`. -/
def dropRow (cols : List String) (n : String) (r : List Val) : List Val :=
  ((cols.zip r).filter (fun p => p.1 != n)).map Prod.snd

/-- `df.drop(columns=[n])` (drops every column labelled `n`). -/
def dropByName (t : Table) (n : String) : Table :=
  ⟨t.cols.filter (fun c => c != n), t.rows.map (dropRow t.cols n)⟩

/-- The columns of `cs` absent from the frame are appended filled with "N"
    (`df[col] = "N"` guarded by `if col not in df.columns`). -/
def addMissingCols (t : Table) (cs : List String) : Table :=
  cs.foldl (fun acc c =>
    if c ∈ acc.cols then acc
    else ⟨acc.cols ++ [c], acc.rows.map (fun r => r ++ [some "N"])⟩) t

/-- `df[cs]`: select/reorder columns by label. -/
def reindex (t : Table) (cs : List String) : Table :=
  ⟨cs, t.rows.map fun r => cs.map (fun c => cell t.cols r c)⟩

/-- `pd.concat([a, b], ignore_index=True)`: union of the columns in order of
    first appearance, rows aligned by label, absent cells NaN. -/
def concatT (a b : Table) : Table :=
  let cs := a.cols ++ b.cols.filter (fun c => decide (c ∉ a.cols))
  ⟨cs, a.rows.map (fun r => cs.map (fun c => cell a.cols r c))
      ++ b.rows.map (fun r => cs.map (fun c => cell b.cols r c))⟩

/-! ### CategoryMerger (`process_csv_files_for_bank`) -/

/-- `df.iloc[0, 2].strip()`: the category label of a non-empty extract file
    (`none` when the first row's third cell is NaN — `.strip()` would raise). -/
def category_value (f : Table) : Option String :=
  ((f.rows.headD []).getD 2 none).map pyStrip

/-- Lines 88-89 of the script: `df[category] = "J"` followed by
    `df.drop(columns=[df.columns[2]])`. -/
def processFile (f : Table) (cat : String) : Table :=
  let f1 := setConst f cat (some "J")
  dropByName f1 (f1.cols.getD 2 "")

/-- Lines 90-97: reconcile the two column sets with "N" fills, reindex this
    file's frame to the merged column order, then append its rows. -/
def mergeStep (merged : Table) (d : Table) : Table :=
  let d2 := addMissingCols d merged.cols
  let m2 := addMissingCols merged d2.cols
  let d3 := if m2.rows.isEmpty || m2.cols.isEmpty then d2 else reindex d2 m2.cols
  concatT m2 d3

structure BankSummary where
  merged : List String
  missing : List String
  errors : List String
deriving DecidableEq

/-- One iteration of the merge loop for one named input file, classifying the
    per-file outcome exactly as the `try/except` does: an empty frame raises
    "... (no data)" and lands in the missing bucket; fewer than three columns
    (an `iloc` indexer error) or a NaN third cell (`.strip()` on a float)
    raise messages that land in the error bucket. -/
def processOne (acc : Table × BankSummary) (nf : String × Table) : Table × BankSummary :=
  if nf.2.rows.isEmpty then
    (acc.1, { acc.2 with missing := acc.2.missing ++ [nf.1] })
  else if nf.2.cols.length < 3 then
    (acc.1, { acc.2 with errors := acc.2.errors ++ [nf.1] })
  else
    match category_value nf.2 with
    | none => (acc.1, { acc.2 with errors := acc.2.errors ++ [nf.1] })
    | some cat => (mergeStep acc.1 (processFile nf.2 cat),
                   { acc.2 with merged := acc.2.merged ++ [cat] })

/-- The whole merge loop over a bank's parsed files, from an empty frame. -/
def process_csv_files_for_bank (files : List (String × Table)) : Table × BankSummary :=
  files.foldl processOne (⟨[], []⟩, ⟨[], [], []⟩)

/-! ### DuplicateReconciler (`merge_grouped_duplicates`) -/

/-- A value a dynamic column may show: NaN, "J", "N" or "". -/
def isFlagVal (v : Val) : Bool :=
  v == none || v == some "J" || v == some "N" || v == some ""

/-- `identify_dynamic_columns` relative to the rows its sample contains: a
    column is dynamic when every sampled value lies in {"J","N",""} with NaN
    ignored.  The source draws the sample as
    `df if len(df) <= 100 else df.sample(n=100, random_state=42)`; the
    pseudorandom choice is left abstract here, so a statement quantified over
    `sample` covers the program whichever rows its seeded sample holds. -/
def identify_dynamic_columns_sampled (t : Table) (sample : List (List Val)) : List String :=
  t.cols.filter fun c => sample.all fun r => isFlagVal (cell t.cols r c)

/-- `identify_dynamic_columns` with the sample the source uses for frames of
    at most 100 rows, namely the whole frame (`sample = df`); for larger
    frames the program instead classifies from a pseudorandom 100-row sample,
    covered by `identify_dynamic_columns_sampled`. -/
def identify_dynamic_columns (t : Table) : List String :=
  identify_dynamic_columns_sampled t t.rows

/-- The order `sort_values(by=key)` uses: ascending, NaN last.  Modelled as a
    stable sort; the spec calls the tie-break within equal keys arbitrary. -/
def valLe (a b : Val) : Bool :=
  match a, b with
  | none, none => true
  | none, some _ => false
  | some _, none => true
  | some x, some y => lexLe x y

def sortRows (t : Table) (key : String) : Table :=
  ⟨t.cols, sortLe (fun r s => valLe (cell t.cols r key) (cell t.cols s key)) t.rows⟩

/-- The distinct customer keys in ascending order (`groupby` drops NaN keys). -/
def distinctKeys (t : Table) (key : String) : List String :=
  ((sortRows t key).rows.filterMap (fun r => cell t.cols r key)).dedup

/-- The rows of one groupby group, in sorted-frame order. -/
def groupFor (t : Table) (key k : String) : List (List Val) :=
  (sortRows t key).rows.filter (fun r => cell t.cols r key == some k)

/-- `merge_group`: start from the group's first row; every dynamic column
    becomes "J" when some row of the group has "J", else "N"; every fixed
    column takes the group's first non-NaN value when one exists. -/
def merge_group (cols dyn : List String) (group : List (List Val)) : List Val :=
  (List.range cols.length).map fun i =>
    if cols.getD i "" ∈ dyn then
      some (if group.any (fun r => r.getD i none == some "J") then "J" else "N")
    else
      match group.filterMap (fun r => r.getD i none) with
      | v :: _ => some v
      | [] => (group.headD []).getD i none

/-- `merge_grouped_duplicates` with the classifier's sampled rows abstract:
    one merged row per distinct key, dynamic columns as classified from the
    given sample. -/
def merge_grouped_duplicates_sampled (t : Table) (key : String)
    (sample : List (List Val)) : Table :=
  ⟨t.cols, (distinctKeys t key).map fun k =>
      merge_group t.cols (identify_dynamic_columns_sampled t sample) (groupFor t key k)⟩

/-- `merge_grouped_duplicates`: one merged row per distinct key, with the
    classifier sample the source uses for frames of at most 100 rows (the
    whole frame). -/
def merge_grouped_duplicates (t : Table) (key : String) : Table :=
  merge_grouped_duplicates_sampled t key t.rows

/-! ### DatasetSummarizer (`summarize_dataset`, lines 131-132) -/

def summaryIsFlag (v : Val) : Bool := v == none || v == some "J" || v == some "N"

/-- `[col for col in df.columns if df[col].dropna().isin(["J","N"]).all()]`. -/
def summary_dynamic_cols (t : Table) : List String :=
  t.cols.filter fun c => t.rows.all fun r => summaryIsFlag (cell t.cols r c)

/-- `[col for col in df.columns if col not in dynamic_cols]`. -/
def summary_static_cols (t : Table) : List String :=
  t.cols.filter fun c => decide (c ∉ summary_dynamic_cols t)

/-! ### ConsistencyChecker (`check_bank_file_consistency`) -/

def isDigitChar (c : Char) : Bool := 48 ≤ c.toNat && c.toNat ≤ 57

/-- `re.sub(r'\.B\d{4}\.', '.B####.', f)`: left-to-right, non-overlapping;
    the trailing dot of a match is consumed. -/
def maskCharsF : Nat → List Char → List Char
  | 0, l => l
  | _ + 1, [] => []
  | fuel + 1, '.' :: 'B' :: c1 :: c2 :: c3 :: c4 :: '.' :: rest2 =>
    if isDigitChar c1 && isDigitChar c2 && isDigitChar c3 && isDigitChar c4 then
      '.' :: 'B' :: '#' :: '#' :: '#' :: '#' :: '.' :: maskCharsF fuel rest2
    else '.' :: maskCharsF fuel ('B' :: c1 :: c2 :: c3 :: c4 :: '.' :: rest2)
  | fuel + 1, c :: rest => c :: maskCharsF fuel rest

def maskChars (l : List Char) : List Char := maskCharsF l.length l

/-- A filename with its bank digits masked (the spec's ShapeKey). -/
def shapeKey (f : String) : String := ⟨maskChars f.data⟩

def shapeSet (fs : List String) : Finset String := (fs.map shapeKey).toFinset

def exceptBeq : Except String Unit → Except String Unit → Bool
  | .ok _, .ok _ => true
  | .error x, .error y => x == y
  | _, _ => false

instance : DecidableEq (Except String Unit) := fun a b =>
  decidable_of_iff (exceptBeq a b = true) (by
    cases a <;> cases b <;> simp [exceptBeq])

/-- The message of the `ValueError` raised on a mismatch. -/
def inconsistencyMsg (bankId refBank : String) : String :=
  "Bank file inconsistency: " ++ bankId ++ " ≠ " ++ refBank

def checkLoop (refBank : String) (refSet : Finset String) :
    List (String × List String) → Except String Unit
  | [] => Except.ok ()
  | (b, fs) :: rest =>
    if shapeSet fs = refSet then checkLoop refBank refSet rest
    else Except.error (inconsistencyMsg b refBank)

/-- `check_bank_file_consistency`: the first bank is the reference and every
    bank (the reference included) must expose an equal masked-filename set.
    On an empty index `next(iter(...))` raises StopIteration. -/
def check_bank_file_consistency : List (String × List String) → Except String Unit
  | [] => Except.error "StopIteration"
  | (b0, fs0) :: rest => checkLoop b0 (shapeSet fs0) ((b0, fs0) :: rest)

/-! ### Enricher (`enrich_with_pac_data`) -/

structure PacRow where
  bankId : String
  foretaksnr : String
  personnr : String
  avtaleId : String
  brukertype : String
deriving DecidableEq

/-- Python `str.zfill`: left-pad with zeros to the width, sign-aware. -/
def zfill (w : Nat) (s : String) : String :=
  if w ≤ s.length then s
  else
    match s.data with
    | c :: rest =>
      if c = '+' ∨ c = '-' then ⟨c :: (List.replicate (w - s.length) '0' ++ rest)⟩
      else ⟨List.replicate (w - s.length) '0' ++ s.data⟩
    | [] => ⟨List.replicate w '0'⟩

/-- `pac_data["FORETAKSNR"].str.zfill(11)` applied to every row. -/
def pac_normalize (pac : List PacRow) : List PacRow :=
  pac.map fun p => { p with foretaksnr := zfill 11 p.foretaksnr }

/-- `pac_data[pac_data["BANK_ID"] == str(bank_id)]`. -/
def pac_subset (pac : List PacRow) (bankId : String) : List PacRow :=
  (pac_normalize pac).filter (fun p => p.bankId == bankId)

/-- One `groupby("FORETAKSNR")` group, in the table's row order. -/
def groupPac (sub : List PacRow) (k : String) : List PacRow :=
  sub.filter (fun p => p.foretaksnr == k)

/-- `"|".join(sorted(set(group["AVTALE_ID"])))`, defined for present keys. -/
def avtale_lookup (sub : List PacRow) (k : String) : Option String :=
  match groupPac sub k with
  | [] => none
  | g => some (String.intercalate "|" (sortLe lexLe (g.map (·.avtaleId)).dedup))

/-- `"|".join(f"{PERSONNR}:{BRUKERTYPE}")` in row order, for present keys. -/
def users_lookup (sub : List PacRow) (k : String) : Option String :=
  match groupPac sub k with
  | [] => none
  | g => some (String.intercalate "|" (g.map fun p => p.personnr ++ ":" ++ p.brukertype))

/-- `enrich_with_pac_data`: the input frame unchanged when the bank has no
    PAC rows, otherwise two derived columns via map-then-fillna("") keyed by
    `Kundenummer`. -/
def enrich_with_pac_data (t : Table) (bankId : String) (pac : List PacRow) : Table :=
  if bankId ∈ (pac_normalize pac).map (·.bankId) then
    let sub := pac_subset pac bankId
    let t1 := setColF t "AVTALE_IDs"
      (fun r => some (((cell t.cols r "Kundenummer").bind (avtale_lookup sub)).getD ""))
    setColF t1 "Users_PERSONNR:BRUKERTYPE"
      (fun r => some (((cell t1.cols r "Kundenummer").bind (users_lookup sub)).getD ""))
  else t

/-! ### File selection (`list_bank_files_by_type`, `run_bm_flow`) -/

def hasOBS : List Char → Bool
  | 'O' :: 'B' :: 'S' :: _ => true
  | _ :: rest => hasOBS rest
  | [] => false

/-- `"OBS" in f.upper()`. -/
def containsOBS (s : String) : Bool := hasOBS (upperStr s).data

/-- `bank_file_map.get(bank_id, [])`. -/
def lookupBank (m : List (String × List String)) (b : String) : List String :=
  match m.find? (fun p => p.1 == b) with
  | some p => p.2
  | none => []

/-- `list_bank_files_by_type`. -/
def list_bank_files_by_type (m : List (String × List String)) (bankId : String)
    (fileExt : String) (excludeObs : Bool) : List String :=
  (lookupBank m bankId).filter fun f =>
    strEndsWith f fileExt && (!excludeObs || !containsOBS f)

/-- The file selection `run_bm_flow` performs: extension ".CSV.BM" and the
    default `exclude_obs=True`. -/
def bm_flow_files (m : List (String × List String)) (bankId : String) : List String :=
  list_bank_files_by_type m bankId ".CSV.BM" true

/-! ### Column reconciliation: closed forms used for the order-independence
of the two-file merge -/

/-- The columns the `if col not in ...` loop appends, with its growing frame. -/
def newOf (base : List String) : List String → List String
  | [] => []
  | c :: cs => if c ∈ base then newOf base cs else c :: newOf (base ++ [c]) cs

/-- The label-indexed valuation a row of file `X` has inside a merged frame
containing files `X` and `Y`: its own value on its own columns, the fill "N"
on the other file's columns, NaN elsewhere.  This valuation does not depend
on the merge order. -/
def pairVal (X Y : Table) (r : List Val) (c : String) : Val :=
  if c ∈ X.cols then cell X.cols r c else if c ∈ Y.cols then some "N" else none

/-- The merged table `process_csv_files_for_bank` produces for two files. -/
def mergedPair (x y : String × Table) : Table :=
  (process_csv_files_for_bank [x, y]).1

def exA : Table :=
  ⟨["Kundenummer", "Navn", "Kat"], [[some "001", some "Ann", some "RETAIL"]]⟩

def exB : Table :=
  ⟨["Kundenummer", "Navn", "Kat"],
   [[some "001", some "Ann", some "SAVINGS"], [some "002", some "Bob", some "SAVINGS"]]⟩

theorem colIdx_eq_none_iff (cols : List String) (c : String) :
    colIdx cols c = none ↔ c ∉ cols := by
  induction cols with
  | nil => simp [colIdx]
  | cons d cs ih =>
    by_cases h : d = c
    · simp [colIdx, h]
    · simp [colIdx, h, ih, Ne.symm h]

theorem colIdx_isSome_iff (cols : List String) (c : String) :
    (colIdx cols c).isSome ↔ c ∈ cols := by
  rw [← Decidable.not_iff_not]
  simp [Option.isSome_iff_ne_none, colIdx_eq_none_iff]

theorem colIdx_spec (cols : List String) (c : String) (i : Nat)
    (h : colIdx cols c = some i) : i < cols.length ∧ cols.getD i "" = c := by
  induction cols generalizing i with
  | nil => simp [colIdx] at h
  | cons d cs ih =>
    by_cases hd : d = c
    · simp [colIdx, hd] at h
      subst h hd
      simp
    · simp [colIdx, hd] at h
      obtain ⟨j, hj, rfl⟩ := h
      obtain ⟨h1, h2⟩ := ih j hj
      refine ⟨by simp only [List.length_cons]; omega, ?_⟩
      simpa using h2

theorem cell_of_colIdx {cols : List String} {c : String} {i : Nat}
    (h : colIdx cols c = some i) (r : List Val) :
    cell cols r c = r.getD i none := by
  simp [cell, h]

theorem cell_of_not_mem {cols : List String} {c : String}
    (h : c ∉ cols) (r : List Val) : cell cols r c = none := by
  simp [cell, (colIdx_eq_none_iff cols c).mpr h]

theorem cell_cons_self (d : String) (cs : List String) (v : Val) (r : List Val) :
    cell (d :: cs) (v :: r) d = v := by
  simp [cell, colIdx]

theorem cell_cons_ne {d c : String} (h : c ≠ d) (cs : List String)
    (v : Val) (r : List Val) : cell (d :: cs) (v :: r) c = cell cs r c := by
  have hd : ¬ d = c := fun hh => h hh.symm
  simp only [cell, colIdx, if_neg hd]
  cases colIdx cs c <;> simp

theorem cell_nil_row (cols : List String) (c : String) :
    cell cols [] c = none := by
  unfold cell
  cases colIdx cols c <;> simp

theorem insertLe_perm {α : Type} (le : α → α → Bool) (a : α) (l : List α) :
    (insertLe le a l).Perm (a :: l) := by
  induction l with
  | nil => simp [insertLe]
  | cons b bs ih =>
    by_cases h : le a b
    · simp [insertLe, h]
    · simp only [insertLe, if_neg h]
      exact (ih.cons b).trans (List.Perm.swap a b bs)

theorem sortLe_perm {α : Type} (le : α → α → Bool) (l : List α) :
    (sortLe le l).Perm l := by
  induction l with
  | nil => simp [sortLe]
  | cons a as ih => exact (insertLe_perm le a (sortLe le as)).trans (ih.cons a)

theorem mem_sortLe {α : Type} (le : α → α → Bool) (l : List α) (a : α) :
    a ∈ sortLe le l ↔ a ∈ l :=
  (sortLe_perm le l).mem_iff

/-! ### General lemmas about label lookup and the frame operations -/

theorem colIdx_append_left {l₁ : List String} {c : String} (h : c ∈ l₁) (l₂ : List String) :
    colIdx (l₁ ++ l₂) c = colIdx l₁ c := by
  induction l₁ with
  | nil => simp at h
  | cons d cs ih =>
    by_cases hd : d = c
    · simp [colIdx, hd]
    · have hc : c ∈ cs := by
        rcases List.mem_cons.mp h with h' | h'
        · exact absurd h'.symm hd
        · exact h'
      simp [colIdx, hd, ih hc]

theorem colIdx_append_right {l₁ : List String} {c : String} (h : c ∉ l₁) (l₂ : List String) :
    colIdx (l₁ ++ l₂) c = (colIdx l₂ c).map (· + l₁.length) := by
  induction l₁ with
  | nil =>
    simp only [List.nil_append, List.length_nil]
    cases colIdx l₂ c <;> simp
  | cons d cs ih =>
    have hd : ¬ d = c := fun hh => h (by simp [hh])
    have hc : c ∉ cs := fun hh => h (List.mem_cons_of_mem d hh)
    rw [List.cons_append]
    show (if d = c then some 0 else (colIdx (cs ++ l₂) c).map (· + 1)) = _
    rw [if_neg hd, ih hc]
    cases colIdx l₂ c with
    | none => rfl
    | some j =>
      simp only [Option.map_map, Option.map_some', Function.comp_apply,
        List.length_cons, Option.some.injEq]
      omega

theorem getD_map_of_lt {α β : Type} (f : α → β) (l : List α) (i : Nat)
    (h : i < l.length) (d : β) (d' : α) :
    (l.map f).getD i d = f (l.getD i d') := by
  simp [List.getD_eq_getElem?_getD, List.getElem?_map, List.getElem?_eq_getElem h]

theorem getD_mem_of_lt {α : Type} (l : List α) (i : Nat) (h : i < l.length) (d : α) :
    l.getD i d ∈ l := by
  rw [List.getD_eq_getElem?_getD, List.getElem?_eq_getElem h]
  exact List.getElem_mem h

/-- What `setColF` does, seen through `cell`: rows are transformed pointwise,
    the written column reads back the written value, the other columns are
    untouched, and row lengths follow the (possibly grown) header. -/
theorem setColF_spec (t : Table) (c : String) (f : List Val → Val) :
    ∃ φ, (setColF t c f).rows = t.rows.map φ
      ∧ (∀ r, r.length = t.cols.length →
          cell (setColF t c f).cols (φ r) c = f r)
      ∧ (∀ r c', c' ≠ c → r.length = t.cols.length →
          cell (setColF t c f).cols (φ r) c' = cell t.cols r c')
      ∧ (∀ r, r.length = t.cols.length →
          (φ r).length = (setColF t c f).cols.length) := by
  unfold setColF
  cases hidx : colIdx t.cols c with
  | some i =>
    obtain ⟨hi, hname⟩ := colIdx_spec t.cols c i hidx
    refine ⟨fun r => r.set i (f r), rfl, ?_, ?_, ?_⟩
    · intro r hr
      rw [cell_of_colIdx hidx]
      rw [List.getD_eq_getElem?_getD, List.getElem?_set_self (by omega)]
      rfl
    · intro r c' hne hr
      cases hidx' : colIdx t.cols c' with
      | none => simp [cell, hidx']
      | some j =>
        obtain ⟨hj, hname'⟩ := colIdx_spec t.cols c' j hidx'
        have hij : i ≠ j := fun hh => hne (by rw [← hname', ← hname, hh])
        rw [cell_of_colIdx hidx', cell_of_colIdx hidx',
          List.getD_eq_getElem?_getD, List.getD_eq_getElem?_getD,
          List.getElem?_set_ne hij]
    · intro r hr
      simp [hr]
  | none =>
    have hnotmem : c ∉ t.cols := (colIdx_eq_none_iff t.cols c).mp hidx
    refine ⟨fun r => r ++ [f r], rfl, ?_, ?_, ?_⟩
    · intro r hr
      have : colIdx (t.cols ++ [c]) c = some t.cols.length := by
        rw [colIdx_append_right hnotmem]
        simp [colIdx]
      rw [cell_of_colIdx this, ← hr, List.getD_eq_getElem?_getD]
      rw [List.getElem?_append_right (by omega)]
      simp
    · intro r c' hne hr
      by_cases hmem : c' ∈ t.cols
      · cases hidx' : colIdx t.cols c' with
        | none => exact absurd ((colIdx_eq_none_iff t.cols c').mp hidx') (by simp [hmem])
        | some j =>
          obtain ⟨hj, _⟩ := colIdx_spec t.cols c' j hidx'
          have hidx2 : colIdx (t.cols ++ [c]) c' = some j := by
            rw [colIdx_append_left hmem, hidx']
          rw [cell_of_colIdx hidx2, cell_of_colIdx hidx']
          exact List.getD_append _ _ _ _ (by omega)
      · have : c' ∉ t.cols ++ [c] := by
          simp only [List.mem_append, List.mem_singleton]
          rintro (h' | h')
          · exact hmem h'
          · exact hne h'
        rw [cell_of_not_mem this, cell_of_not_mem hmem]
    · intro r hr
      simp [hr]

theorem checkLoop_ok_iff (refBank : String) (S : Finset String)
    (l : List (String × List String)) :
    checkLoop refBank S l = Except.ok () ↔ ∀ p ∈ l, shapeSet p.2 = S := by
  induction l with
  | nil => simp [checkLoop]
  | cons p rest ih =>
    obtain ⟨b, fs⟩ := p
    by_cases h : shapeSet fs = S
    · simp [checkLoop, h, ih]
    · simp [checkLoop, h]

theorem checkLoop_first_mismatch (refBank : String) (S : Finset String)
    (pre : List (String × List String)) (b : String) (fs : List String)
    (post : List (String × List String))
    (hpre : ∀ p ∈ pre, shapeSet p.2 = S) (hb : shapeSet fs ≠ S) :
    checkLoop refBank S (pre ++ (b, fs) :: post)
      = Except.error (inconsistencyMsg b refBank) := by
  induction pre with
  | nil => simp [checkLoop, hb]
  | cons q qre ih =>
    obtain ⟨b', fs'⟩ := q
    have hq : shapeSet fs' = S := hpre (b', fs') (by simp)
    simp only [List.cons_append, checkLoop, if_pos hq]
    exact ih (fun p hp => hpre p (List.mem_cons_of_mem _ hp))

/-! ## Claims -/

/-- C5: for a non-empty file-set index the consistency check succeeds iff every
bank's masked-filename set equals the (first) reference bank's; a single-bank
index trivially succeeds; and the first mismatching bank raises the error
naming the offending and the reference bank, whatever banks follow it. -/
theorem C5_consistency_check (b0 : String) (fs0 : List String)
    (rest : List (String × List String)) :
    (check_bank_file_consistency ((b0, fs0) :: rest) = Except.ok ()
      ↔ ∀ p ∈ rest, shapeSet p.2 = shapeSet fs0)
    ∧ (rest = [] → check_bank_file_consistency ((b0, fs0) :: rest) = Except.ok ())
    ∧ (∀ pre b fs post,
        (∀ p ∈ pre, shapeSet p.2 = shapeSet fs0) → shapeSet fs ≠ shapeSet fs0 →
        rest = pre ++ (b, fs) :: post →
        check_bank_file_consistency ((b0, fs0) :: rest)
          = Except.error (inconsistencyMsg b b0)) := by
  have hunf : check_bank_file_consistency ((b0, fs0) :: rest)
      = checkLoop b0 (shapeSet fs0) rest := by
    simp [check_bank_file_consistency, checkLoop]
  refine ⟨?_, ?_, ?_⟩
  · rw [hunf]
    exact checkLoop_ok_iff b0 (shapeSet fs0) rest
  · rintro rfl
    rw [hunf]
    rfl
  · rintro pre b fs post hpre hb rfl
    rw [hunf]
    exact checkLoop_first_mismatch b0 (shapeSet fs0) pre b fs post hpre hb

/-- C8: a bank with no rows at all in the lookup table makes the enricher
return the input table unchanged — same columns, rows and values — as a
normal return, not an error. -/
theorem C8_enrich_absent_bank_unchanged (t : Table) (bankId : String) (pac : List PacRow)
    (hb : bankId ∉ (pac_normalize pac).map (fun p => p.bankId)) :
    enrich_with_pac_data t bankId pac = t := by
  simp [enrich_with_pac_data, hb]

theorem C8_enrich_absent_bank_unchanged_witness :
    ("9999" ∉ (pac_normalize [⟨"5678", "1", "P1", "AV1", "ADM"⟩]).map (fun p => p.bankId))
    ∧ enrich_with_pac_data ⟨["Kundenummer"], [[some "7"]]⟩ "9999"
        [⟨"5678", "1", "P1", "AV1", "ADM"⟩] = ⟨["Kundenummer"], [[some "7"]]⟩ :=
  ⟨by decide, C8_enrich_absent_bank_unchanged _ _ _ (by decide)⟩

/-- C9: the summarizer classifies a column as a flag (dynamic) column iff all
of its values, ignoring missing ones, lie in {"J","N"}; the dynamic and the
static column lists partition the table's columns. -/
theorem C9_summary_partition (t : Table) (c : String) :
    (c ∈ summary_dynamic_cols t ↔
      c ∈ t.cols ∧ ∀ r ∈ t.rows,
        cell t.cols r c = none ∨ cell t.cols r c = some "J" ∨ cell t.cols r c = some "N")
    ∧ (c ∈ t.cols ↔ (c ∈ summary_dynamic_cols t ∨ c ∈ summary_static_cols t))
    ∧ ¬(c ∈ summary_dynamic_cols t ∧ c ∈ summary_static_cols t) := by
  refine ⟨?_, ⟨fun hc => ?_, fun h => ?_⟩, ?_⟩
  · simp [summary_dynamic_cols, List.mem_filter, List.all_eq_true, summaryIsFlag, or_assoc]
  · by_cases hd : c ∈ summary_dynamic_cols t
    · exact Or.inl hd
    · exact Or.inr (by simp [summary_static_cols, List.mem_filter, hc, hd])
  · rcases h with hd | hs
    · exact (List.mem_filter.mp hd).1
    · exact (List.mem_filter.mp hs).1
  · rintro ⟨hd, hs⟩
    have h2 := (List.mem_filter.mp hs).2
    simp only [decide_eq_true_eq] at h2
    exact h2 hd

/-- C10: the BM flow's file selection also excludes OBS-marked files — no
filename it selects contains "OBS" case-insensitively. -/
theorem C10_bm_flow_excludes_obs (m : List (String × List String)) (bankId f : String)
    (hf : f ∈ bm_flow_files m bankId) : containsOBS f = false := by
  simp only [bm_flow_files, list_bank_files_by_type, List.mem_filter] at hf
  have h2 := hf.2
  simp only [Bool.not_true, Bool.false_or, Bool.and_eq_true, Bool.not_eq_true'] at h2
  exact h2.2

theorem C10_bm_flow_excludes_obs_witness :
    ("X.B1234.K.CSV.BM"
        ∈ bm_flow_files [("1234", ["X.B1234.K.CSV.BM", "X.B1234.OBS.CSV.BM"])] "1234")
    ∧ containsOBS "X.B1234.K.CSV.BM" = false :=
  ⟨by decide, C10_bm_flow_excludes_obs
    [("1234", ["X.B1234.K.CSV.BM", "X.B1234.OBS.CSV.BM"])] "1234"
    "X.B1234.K.CSV.BM" (by decide)⟩

/-- C7: when the bank does have lookup rows, a row of the reconciled table
whose customer key matches no organization number of that bank's lookup rows
gets the empty string — not NaN — in both derived columns. -/
theorem C7_unmatched_customer_empty_strings (t : Table) (bankId : String)
    (pac : List PacRow) (hwf : t.WF)
    (hb : bankId ∈ (pac_normalize pac).map (fun p => p.bankId))
    (i : Nat) (hi : i < t.rows.length) (k : String)
    (hk : cell t.cols (t.rows.getD i []) "Kundenummer" = some k)
    (hnomatch : groupPac (pac_subset pac bankId) k = []) :
    (enrich_with_pac_data t bankId pac).rows.length = t.rows.length
    ∧ cell (enrich_with_pac_data t bankId pac).cols
        ((enrich_with_pac_data t bankId pac).rows.getD i []) "AVTALE_IDs" = some ""
    ∧ cell (enrich_with_pac_data t bankId pac).cols
        ((enrich_with_pac_data t bankId pac).rows.getD i [])
        "Users_PERSONNR:BRUKERTYPE" = some "" := by
  simp only [enrich_with_pac_data, if_pos hb]
  set sub := pac_subset pac bankId with hsub
  set fA : List Val → Val :=
    fun r => some (((cell t.cols r "Kundenummer").bind (avtale_lookup sub)).getD "") with hfA
  set t1 := setColF t "AVTALE_IDs" fA with ht1
  set fU : List Val → Val :=
    fun r => some (((cell t1.cols r "Kundenummer").bind (users_lookup sub)).getD "") with hfU
  obtain ⟨φ1, hrows1, hself1, hother1, hlen1⟩ := setColF_spec t "AVTALE_IDs" fA
  obtain ⟨φ2, hrows2, hself2, hother2, hlen2⟩ :=
    setColF_spec t1 "Users_PERSONNR:BRUKERTYPE" fU
  have ht1wf : ∀ r ∈ t.rows, (φ1 r).length = t1.cols.length := by
    intro r hr
    exact hlen1 r (hwf r hr)
  set r0 := t.rows.getD i [] with hr0
  have hr0mem : r0 ∈ t.rows := getD_mem_of_lt t.rows i hi []
  have hr0len : r0.length = t.cols.length := hwf r0 hr0mem
  have hrows : (setColF t1 "Users_PERSONNR:BRUKERTYPE" fU).rows
      = t.rows.map (fun r => φ2 (φ1 r)) := by
    rw [hrows2, ht1]
    rw [hrows1, List.map_map]
    rfl
  have hlen : (setColF t1 "Users_PERSONNR:BRUKERTYPE" fU).rows.length = t.rows.length := by
    rw [hrows, List.length_map]
  have hrowi : (setColF t1 "Users_PERSONNR:BRUKERTYPE" fU).rows.getD i []
      = φ2 (φ1 r0) := by
    rw [hrows, hr0]
    exact getD_map_of_lt _ t.rows i hi [] []
  have hneq : ("AVTALE_IDs" : String) ≠ "Users_PERSONNR:BRUKERTYPE" := by decide
  have hneq2 : ("Kundenummer" : String) ≠ "AVTALE_IDs" := by decide
  have hφ1len : (φ1 r0).length = t1.cols.length := ht1wf r0 hr0mem
  have hkey1 : cell t1.cols (φ1 r0) "Kundenummer" = some k := by
    rw [ht1, hother1 r0 "Kundenummer" hneq2 hr0len]
    exact hk
  have hAv : cell t1.cols (φ1 r0) "AVTALE_IDs" = some "" := by
    rw [ht1, hself1 r0 hr0len]
    simp [hfA, hk, avtale_lookup, hnomatch]
  refine ⟨hlen, ?_, ?_⟩
  · rw [hrowi, hother2 (φ1 r0) "AVTALE_IDs" hneq hφ1len]
    exact hAv
  · rw [hrowi, hself2 (φ1 r0) hφ1len]
    simp [hfU, hkey1, users_lookup, hnomatch]

theorem C7_unmatched_customer_empty_strings_witness :
    ((⟨["Kundenummer"], [[some "99999999999"]]⟩ : Table).WF
    ∧ "5678" ∈ (pac_normalize [⟨"5678", "1", "P1", "AV1", "ADM"⟩]).map (fun p => p.bankId)
    ∧ 0 < (⟨["Kundenummer"], [[some "99999999999"]]⟩ : Table).rows.length
    ∧ cell ["Kundenummer"] [some "99999999999"] "Kundenummer" = some "99999999999"
    ∧ groupPac (pac_subset [⟨"5678", "1", "P1", "AV1", "ADM"⟩] "5678") "99999999999" = [])
    ∧ ((enrich_with_pac_data ⟨["Kundenummer"], [[some "99999999999"]]⟩ "5678"
          [⟨"5678", "1", "P1", "AV1", "ADM"⟩]).rows.length
        = (⟨["Kundenummer"], [[some "99999999999"]]⟩ : Table).rows.length
      ∧ cell (enrich_with_pac_data ⟨["Kundenummer"], [[some "99999999999"]]⟩ "5678"
            [⟨"5678", "1", "P1", "AV1", "ADM"⟩]).cols
          ((enrich_with_pac_data ⟨["Kundenummer"], [[some "99999999999"]]⟩ "5678"
            [⟨"5678", "1", "P1", "AV1", "ADM"⟩]).rows.getD 0 []) "AVTALE_IDs" = some ""
      ∧ cell (enrich_with_pac_data ⟨["Kundenummer"], [[some "99999999999"]]⟩ "5678"
            [⟨"5678", "1", "P1", "AV1", "ADM"⟩]).cols
          ((enrich_with_pac_data ⟨["Kundenummer"], [[some "99999999999"]]⟩ "5678"
            [⟨"5678", "1", "P1", "AV1", "ADM"⟩]).rows.getD 0 [])
          "Users_PERSONNR:BRUKERTYPE" = some "") :=
  ⟨by decide, C7_unmatched_customer_empty_strings
    ⟨["Kundenummer"], [[some "99999999999"]]⟩ "5678" [⟨"5678", "1", "P1", "AV1", "ADM"⟩]
    (by decide) (by decide) 0 (by decide) "99999999999" (by decide) (by decide)⟩

theorem processOne_fst_eq (x : String × Table) (m : Table) (s s' : BankSummary) :
    (processOne (m, s) x).1 = (processOne (m, s') x).1 := by
  unfold processOne
  by_cases h1 : x.2.rows.isEmpty = true
  · rw [if_pos h1, if_pos h1]
  · rw [if_neg h1, if_neg h1]
    by_cases h2 : x.2.cols.length < 3
    · rw [if_pos h2, if_pos h2]
    · rw [if_neg h2, if_neg h2]
      cases category_value x.2 <;> rfl

theorem foldl_fst_indep (l : List (String × Table)) (m : Table) (s s' : BankSummary) :
    (l.foldl processOne (m, s)).1 = (l.foldl processOne (m, s')).1 := by
  induction l generalizing m s s' with
  | nil => rfl
  | cons x xs ih =>
    simp only [List.foldl_cons]
    have h1 := processOne_fst_eq x m s s'
    calc (xs.foldl processOne (processOne (m, s) x)).1
        = (xs.foldl processOne ((processOne (m, s) x).1, (processOne (m, s) x).2)).1 := rfl
      _ = (xs.foldl processOne ((processOne (m, s') x).1, (processOne (m, s') x).2)).1 := by
          rw [h1]
          exact ih _ _ _
      _ = (xs.foldl processOne (processOne (m, s') x)).1 := rfl

theorem processOne_missing_mono (x : String × Table) (m : Table) (s : BankSummary)
    (n : String) (h : n ∈ s.missing) : n ∈ (processOne (m, s) x).2.missing := by
  unfold processOne
  by_cases h1 : x.2.rows.isEmpty = true
  · rw [if_pos h1]
    exact List.mem_append_left _ h
  · rw [if_neg h1]
    by_cases h2 : x.2.cols.length < 3
    · rw [if_pos h2]
      exact h
    · rw [if_neg h2]
      cases category_value x.2
      · exact h
      · exact h

theorem foldl_missing_mono (l : List (String × Table)) (m : Table) (s : BankSummary)
    (n : String) (h : n ∈ s.missing) : n ∈ (l.foldl processOne (m, s)).2.missing := by
  induction l generalizing m s with
  | nil => exact h
  | cons x xs ih =>
    simp only [List.foldl_cons]
    have h' : n ∈ (processOne (m, s) x).2.missing := processOne_missing_mono x m s n h
    exact ih (processOne (m, s) x).1 (processOne (m, s) x).2 h'

/-- C6: a file yielding zero data rows is recorded in the bank's missing set,
contributes no rows or columns to the merged table, and the remaining files
are processed exactly as if it were absent. -/
theorem C6_empty_file_skipped (l₁ l₂ : List (String × Table)) (nm : String) (f : Table)
    (hf : f.rows = []) :
    nm ∈ (process_csv_files_for_bank (l₁ ++ (nm, f) :: l₂)).2.missing
    ∧ (process_csv_files_for_bank (l₁ ++ (nm, f) :: l₂)).1
        = (process_csv_files_for_bank (l₁ ++ l₂)).1 := by
  unfold process_csv_files_for_bank
  rw [List.foldl_append, List.foldl_append]
  set acc := l₁.foldl processOne (⟨[], []⟩, ⟨[], [], []⟩) with hacc
  have hstep : List.foldl processOne acc ((nm, f) :: l₂)
      = List.foldl processOne
          (acc.1, { acc.2 with missing := acc.2.missing ++ [nm] }) l₂ := by
    simp only [List.foldl_cons, processOne, hf, List.isEmpty_nil, if_true]
  constructor
  · rw [hstep]
    exact foldl_missing_mono l₂ acc.1 _ nm (by simp)
  · rw [hstep]
    calc (List.foldl processOne (acc.1, { acc.2 with missing := acc.2.missing ++ [nm] }) l₂).1
        = (List.foldl processOne (acc.1, acc.2) l₂).1 := foldl_fst_indep l₂ acc.1 _ _
      _ = (List.foldl processOne acc l₂).1 := rfl

theorem C6_empty_file_skipped_witness :
    ((⟨["A","B","C"], []⟩ : Table).rows = []
    ∧ "s.B9999.PM.CSV" ∈ (process_csv_files_for_bank
        [("s.B9999.PM.CSV", ⟨["A","B","C"], []⟩),
         ("a", ⟨["Kundenummer","Navn","Kat"], [[some "001", some "Ann", some "RETAIL"]]⟩)]).2.missing
    ∧ (process_csv_files_for_bank
        [("s.B9999.PM.CSV", ⟨["A","B","C"], []⟩),
         ("a", ⟨["Kundenummer","Navn","Kat"], [[some "001", some "Ann", some "RETAIL"]]⟩)]).1
      = (process_csv_files_for_bank
        [("a", ⟨["Kundenummer","Navn","Kat"], [[some "001", some "Ann", some "RETAIL"]]⟩)]).1) :=
  ⟨by decide,
    (C6_empty_file_skipped []
      [("a", ⟨["Kundenummer","Navn","Kat"], [[some "001", some "Ann", some "RETAIL"]]⟩)]
      "s.B9999.PM.CSV" ⟨["A","B","C"], []⟩ (by decide)).1,
    (C6_empty_file_skipped []
      [("a", ⟨["Kundenummer","Navn","Kat"], [[some "001", some "Ann", some "RETAIL"]]⟩)]
      "s.B9999.PM.CSV" ⟨["A","B","C"], []⟩ (by decide)).2⟩

/-! ### Reconciler lemmas -/

theorem mem_sortRows (t : Table) (key : String) (r : List Val) :
    r ∈ (sortRows t key).rows ↔ r ∈ t.rows := by
  unfold sortRows
  exact mem_sortLe _ t.rows r

theorem mem_groupFor (t : Table) (key k : String) (r : List Val) :
    r ∈ groupFor t key k ↔ r ∈ t.rows ∧ cell t.cols r key = some k := by
  unfold groupFor
  rw [List.mem_filter]
  rw [mem_sortRows]
  simp

theorem mem_distinctKeys (t : Table) (key k : String) :
    k ∈ distinctKeys t key ↔ ∃ r ∈ t.rows, cell t.cols r key = some k := by
  unfold distinctKeys
  rw [List.mem_dedup, List.mem_filterMap]
  constructor
  · rintro ⟨r, hr, hc⟩
    exact ⟨r, (mem_sortRows t key r).mp hr, hc⟩
  · rintro ⟨r, hr, hc⟩
    exact ⟨r, (mem_sortRows t key r).mpr hr, hc⟩

theorem groupFor_ne_nil (t : Table) (key k : String)
    (hk : ∃ r ∈ t.rows, cell t.cols r key = some k) : groupFor t key k ≠ [] := by
  obtain ⟨r, hr, hcell⟩ := hk
  intro h
  have hm : r ∈ groupFor t key k := (mem_groupFor t key k r).mpr ⟨hr, hcell⟩
  rw [h] at hm
  exact List.not_mem_nil r hm

theorem mgd_rows (t : Table) (key : String) :
    (merge_grouped_duplicates t key).rows
      = (distinctKeys t key).map (fun k =>
          merge_group t.cols (identify_dynamic_columns t) (groupFor t key k)) := rfl

theorem mgd_sampled_rows (t : Table) (key : String) (sample : List (List Val)) :
    (merge_grouped_duplicates_sampled t key sample).rows
      = (distinctKeys t key).map (fun k =>
          merge_group t.cols (identify_dynamic_columns_sampled t sample)
            (groupFor t key k)) := rfl

theorem dyn_sampled_subset_cols (t : Table) (sample : List (List Val)) (c : String)
    (hc : c ∈ identify_dynamic_columns_sampled t sample) : c ∈ t.cols := by
  unfold identify_dynamic_columns_sampled at hc
  exact (List.mem_filter.mp hc).1

theorem cell_merge_group (cols dyn : List String) (group : List (List Val))
    {c : String} {i : Nat} (hidx : colIdx cols c = some i) :
    cell cols (merge_group cols dyn group) c =
      if c ∈ dyn then
        some (if group.any (fun r => r.getD i none == some "J") then "J" else "N")
      else
        match group.filterMap (fun r => r.getD i none) with
        | v :: _ => some v
        | [] => (group.headD []).getD i none := by
  obtain ⟨hi, hname⟩ := colIdx_spec cols c i hidx
  rw [cell_of_colIdx hidx, merge_group]
  rw [List.getD_eq_getElem?_getD, List.getElem?_map, List.getElem?_range hi]
  simp only [Option.map_some', Option.getD_some]
  rw [hname]

theorem cell_merge_group_dyn (t : Table) (key k c : String) (dyn : List String)
    (hc : c ∈ dyn) (hcm : c ∈ t.cols) :
    cell t.cols (merge_group t.cols dyn (groupFor t key k)) c
      = some (if ∃ r ∈ t.rows, cell t.cols r key = some k ∧ cell t.cols r c = some "J"
              then "J" else "N") := by
  obtain ⟨i, hidx⟩ := Option.isSome_iff_exists.mp ((colIdx_isSome_iff t.cols c).mpr hcm)
  rw [cell_merge_group _ _ _ hidx, if_pos hc]
  have hiff : (groupFor t key k).any (fun r => r.getD i none == some "J") = true
      ↔ ∃ r ∈ t.rows, cell t.cols r key = some k ∧ cell t.cols r c = some "J" := by
    rw [List.any_eq_true]
    constructor
    · rintro ⟨r, hr, hJ⟩
      obtain ⟨hrm, hkey⟩ := (mem_groupFor t key k r).mp hr
      refine ⟨r, hrm, hkey, ?_⟩
      rw [cell_of_colIdx hidx]
      exact eq_of_beq hJ
    · rintro ⟨r, hrm, hkey, hJ⟩
      refine ⟨r, (mem_groupFor t key k r).mpr ⟨hrm, hkey⟩, ?_⟩
      rw [cell_of_colIdx hidx] at hJ
      exact beq_iff_eq.mpr hJ
  by_cases hex : ∃ r ∈ t.rows, cell t.cols r key = some k ∧ cell t.cols r c = some "J"
  · rw [if_pos (hiff.mpr hex), if_pos hex]
  · rw [if_neg (fun hh => hex (hiff.mp hh)), if_neg hex]

theorem cell_merge_group_key (t : Table) (key k : String) (dyn : List String)
    (hkey_fixed : key ∉ dyn)
    (hk : ∃ r ∈ t.rows, cell t.cols r key = some k) :
    cell t.cols (merge_group t.cols dyn (groupFor t key k)) key
      = some k := by
  have hmem : key ∈ t.cols := by
    by_contra hnm
    obtain ⟨r, hr, hcell⟩ := hk
    rw [cell_of_not_mem hnm] at hcell
    exact Option.noConfusion hcell
  obtain ⟨ik, hidx⟩ := Option.isSome_iff_exists.mp ((colIdx_isSome_iff t.cols key).mpr hmem)
  rw [cell_merge_group _ _ _ hidx, if_neg hkey_fixed]
  have hne := groupFor_ne_nil t key k hk
  cases hg : groupFor t key k with
  | nil => exact absurd hg hne
  | cons r rs =>
    have h1 : r.getD ik none = some k := by
      have hrm : r ∈ groupFor t key k := by
        rw [hg]
        exact List.mem_cons_self r rs
      have := ((mem_groupFor t key k r).mp hrm).2
      rwa [cell_of_colIdx hidx] at this
    have h1' : r[ik]?.getD none = some k := by
      rw [← List.getD_eq_getElem?_getD]
      exact h1
    simp [List.filterMap_cons, h1']

/-- C1 counterexample: on the one-row table whose only column is the key and
whose key value is the empty string, the key column is classified dynamic, the
merged row's key cell becomes "N", and therefore no output row carries the
input key "" although that key appears in the input. -/
theorem C1_counterexample :
    (∃ r ∈ (⟨["Kundenummer"], [[some ""]]⟩ : Table).rows,
        cell ["Kundenummer"] r "Kundenummer" = some "")
    ∧ ((merge_grouped_duplicates ⟨["Kundenummer"], [[some ""]]⟩ "Kundenummer").rows.filter
        (fun r => cell ["Kundenummer"] r "Kundenummer" == some "")).length = 0 := by
  decide

/-- C1 (amended): provided the customer-key column is itself classified fixed
— not dynamic — every key appearing in the input yields exactly one output row
carrying that key, and in any output row carrying key `k` every dynamic column
holds "J" exactly when some input row with key `k` holds "J", else "N".
The classifier works from a sample of at most 100 rows (the whole frame for
frames of at most 100 rows, a seeded pseudorandom 100-row sample otherwise);
the statement quantifies over that sample, so it covers the program whichever
rows its sample holds. -/
theorem C1_one_row_per_key (t : Table) (key k : String) (sample : List (List Val))
    (hkey_fixed : key ∉ identify_dynamic_columns_sampled t sample)
    (hk : ∃ r ∈ t.rows, cell t.cols r key = some k) :
    ((merge_grouped_duplicates_sampled t key sample).rows.filter
        (fun r => cell t.cols r key == some k)).length = 1
    ∧ ∀ r ∈ (merge_grouped_duplicates_sampled t key sample).rows,
        cell t.cols r key = some k →
        ∀ c ∈ identify_dynamic_columns_sampled t sample,
          cell t.cols r c
            = some (if ∃ rr ∈ t.rows,
                        cell t.cols rr key = some k ∧ cell t.cols rr c = some "J"
                    then "J" else "N") := by
  constructor
  · rw [mgd_sampled_rows, List.filter_map]
    have hcongr : ∀ k' ∈ distinctKeys t key,
        ((fun r => cell t.cols r key == some k) ∘
          (fun k' => merge_group t.cols (identify_dynamic_columns_sampled t sample)
            (groupFor t key k'))) k'
        = (k' == k) := by
      intro k' hk'
      have hk'ex := (mem_distinctKeys t key k').mp hk'
      simp only [Function.comp_apply]
      rw [cell_merge_group_key t key k' _ hkey_fixed hk'ex]
      by_cases h : k' = k
      · simp [h]
      · simp [h]
    rw [List.length_map, List.filter_congr hcongr, ← List.countP_eq_length_filter]
    have hnd : (distinctKeys t key).Nodup := List.nodup_dedup _
    have hkm : k ∈ distinctKeys t key := (mem_distinctKeys t key k).mpr hk
    exact List.count_eq_one_of_mem hnd hkm
  · intro r hr hrk c hc
    rw [mgd_sampled_rows] at hr
    obtain ⟨k', hk', rfl⟩ := List.mem_map.mp hr
    have hk'ex := (mem_distinctKeys t key k').mp hk'
    have hkeycell := cell_merge_group_key t key k' _ hkey_fixed hk'ex
    rw [hkeycell] at hrk
    have hkk : k' = k := by injection hrk
    subst hkk
    exact cell_merge_group_dyn t key k' c _ hc (dyn_sampled_subset_cols t sample c hc)

theorem C1_one_row_per_key_witness :
    (("Kundenummer" ∉ identify_dynamic_columns_sampled
        ⟨["Kundenummer","CAT"],
          [[some "1", some "J"], [some "1", some "N"], [some "2", some "N"]]⟩
        [[some "1", some "J"], [some "1", some "N"], [some "2", some "N"]])
    ∧ (∃ r ∈ (⟨["Kundenummer","CAT"],
          [[some "1", some "J"], [some "1", some "N"], [some "2", some "N"]]⟩ : Table).rows,
        cell ["Kundenummer","CAT"] r "Kundenummer" = some "1"))
    ∧ (((merge_grouped_duplicates_sampled
          ⟨["Kundenummer","CAT"],
            [[some "1", some "J"], [some "1", some "N"], [some "2", some "N"]]⟩
          "Kundenummer"
          [[some "1", some "J"], [some "1", some "N"], [some "2", some "N"]]).rows.filter
          (fun r => cell ["Kundenummer","CAT"] r "Kundenummer" == some "1")).length = 1
      ∧ ∀ r ∈ (merge_grouped_duplicates_sampled
          ⟨["Kundenummer","CAT"],
            [[some "1", some "J"], [some "1", some "N"], [some "2", some "N"]]⟩
          "Kundenummer"
          [[some "1", some "J"], [some "1", some "N"], [some "2", some "N"]]).rows,
          cell ["Kundenummer","CAT"] r "Kundenummer" = some "1" →
          ∀ c ∈ identify_dynamic_columns_sampled
            ⟨["Kundenummer","CAT"],
              [[some "1", some "J"], [some "1", some "N"], [some "2", some "N"]]⟩
            [[some "1", some "J"], [some "1", some "N"], [some "2", some "N"]],
            cell ["Kundenummer","CAT"] r c
              = some (if ∃ rr ∈ (⟨["Kundenummer","CAT"],
                          [[some "1", some "J"], [some "1", some "N"],
                           [some "2", some "N"]]⟩ : Table).rows,
                          cell ["Kundenummer","CAT"] rr "Kundenummer" = some "1"
                            ∧ cell ["Kundenummer","CAT"] rr c = some "J"
                      then "J" else "N")) :=
  ⟨⟨by decide, by decide⟩,
    C1_one_row_per_key
      ⟨["Kundenummer","CAT"],
        [[some "1", some "J"], [some "1", some "N"], [some "2", some "N"]]⟩
      "Kundenummer" "1"
      [[some "1", some "J"], [some "1", some "N"], [some "2", some "N"]]
      (by decide) (by decide)⟩

/-- C4: for a key `k` and a column classified fixed, when the group of rows
with key `k` holds at least one non-missing value in that column, the merged
row for `k` is a row of the reconciler's output whose value there is the first
non-missing value of the group in sorted order — a value taken from one of the
group's rows, never missing and never newly synthesized.
The classifier works from a sample of at most 100 rows (the whole frame for
frames of at most 100 rows, a seeded pseudorandom 100-row sample otherwise);
the statement quantifies over that sample, so a column the program classifies
fixed under its actual sample is covered. -/
theorem C4_fixed_first_non_missing (t : Table) (key k c : String)
    (sample : List (List Val))
    (hfix : c ∉ identify_dynamic_columns_sampled t sample)
    (hk : ∃ r ∈ t.rows, cell t.cols r key = some k)
    (hvs : (groupFor t key k).filterMap (fun r => cell t.cols r c) ≠ []) :
    merge_group t.cols (identify_dynamic_columns_sampled t sample) (groupFor t key k)
        ∈ (merge_grouped_duplicates_sampled t key sample).rows
    ∧ cell t.cols (merge_group t.cols (identify_dynamic_columns_sampled t sample)
          (groupFor t key k)) c
        = some (((groupFor t key k).filterMap (fun r => cell t.cols r c)).headD "")
    ∧ ∃ r ∈ groupFor t key k,
        cell t.cols r c
          = some (((groupFor t key k).filterMap (fun r => cell t.cols r c)).headD "") := by
  have hcm : c ∈ t.cols := by
    by_contra hnm
    apply hvs
    rw [List.filterMap_eq_nil_iff]
    intro r hr
    exact cell_of_not_mem hnm r
  obtain ⟨i, hidx⟩ := Option.isSome_iff_exists.mp ((colIdx_isSome_iff t.cols c).mpr hcm)
  have hfun : (fun r => cell t.cols r c) = (fun r : List Val => r.getD i none) :=
    funext (fun r => cell_of_colIdx hidx r)
  refine ⟨?_, ?_, ?_⟩
  · rw [mgd_sampled_rows]
    exact List.mem_map_of_mem _ ((mem_distinctKeys t key k).mpr hk)
  · rw [cell_merge_group _ _ _ hidx, if_neg hfix, ← hfun]
    cases hg : (groupFor t key k).filterMap (fun r => cell t.cols r c) with
    | nil => exact absurd hg hvs
    | cons v vs => simp
  · cases hg : (groupFor t key k).filterMap (fun r => cell t.cols r c) with
    | nil => exact absurd hg hvs
    | cons v vs =>
      have hvmem : v ∈ (groupFor t key k).filterMap (fun r => cell t.cols r c) := by
        rw [hg]
        exact List.mem_cons_self v vs
      obtain ⟨r, hr, hrc⟩ := List.mem_filterMap.mp hvmem
      exact ⟨r, hr, by rw [hrc]; rfl⟩

theorem C4_fixed_first_non_missing_witness :
    (("Navn" ∉ identify_dynamic_columns_sampled
        ⟨["Kundenummer","Navn","CAT"],
          [[some "1", none, some "J"], [some "1", some "Bo", some "N"]]⟩
        [[some "1", none, some "J"], [some "1", some "Bo", some "N"]])
    ∧ (∃ r ∈ (⟨["Kundenummer","Navn","CAT"],
          [[some "1", none, some "J"], [some "1", some "Bo", some "N"]]⟩ : Table).rows,
        cell ["Kundenummer","Navn","CAT"] r "Kundenummer" = some "1")
    ∧ (groupFor ⟨["Kundenummer","Navn","CAT"],
          [[some "1", none, some "J"], [some "1", some "Bo", some "N"]]⟩
          "Kundenummer" "1").filterMap
        (fun r => cell ["Kundenummer","Navn","CAT"] r "Navn") ≠ [])
    ∧ (merge_group ["Kundenummer","Navn","CAT"]
          (identify_dynamic_columns_sampled ⟨["Kundenummer","Navn","CAT"],
            [[some "1", none, some "J"], [some "1", some "Bo", some "N"]]⟩
            [[some "1", none, some "J"], [some "1", some "Bo", some "N"]])
          (groupFor ⟨["Kundenummer","Navn","CAT"],
            [[some "1", none, some "J"], [some "1", some "Bo", some "N"]]⟩
            "Kundenummer" "1")
        ∈ (merge_grouped_duplicates_sampled ⟨["Kundenummer","Navn","CAT"],
            [[some "1", none, some "J"], [some "1", some "Bo", some "N"]]⟩
            "Kundenummer"
            [[some "1", none, some "J"], [some "1", some "Bo", some "N"]]).rows
      ∧ cell ["Kundenummer","Navn","CAT"]
          (merge_group ["Kundenummer","Navn","CAT"]
            (identify_dynamic_columns_sampled ⟨["Kundenummer","Navn","CAT"],
              [[some "1", none, some "J"], [some "1", some "Bo", some "N"]]⟩
              [[some "1", none, some "J"], [some "1", some "Bo", some "N"]])
            (groupFor ⟨["Kundenummer","Navn","CAT"],
              [[some "1", none, some "J"], [some "1", some "Bo", some "N"]]⟩
              "Kundenummer" "1")) "Navn"
          = some (((groupFor ⟨["Kundenummer","Navn","CAT"],
              [[some "1", none, some "J"], [some "1", some "Bo", some "N"]]⟩
              "Kundenummer" "1").filterMap
              (fun r => cell ["Kundenummer","Navn","CAT"] r "Navn")).headD "")
      ∧ ∃ r ∈ groupFor ⟨["Kundenummer","Navn","CAT"],
            [[some "1", none, some "J"], [some "1", some "Bo", some "N"]]⟩
            "Kundenummer" "1",
          cell ["Kundenummer","Navn","CAT"] r "Navn"
            = some (((groupFor ⟨["Kundenummer","Navn","CAT"],
                [[some "1", none, some "J"], [some "1", some "Bo", some "N"]]⟩
                "Kundenummer" "1").filterMap
                (fun r => cell ["Kundenummer","Navn","CAT"] r "Navn")).headD "")) :=
  ⟨⟨by decide, by decide, by decide⟩,
    C4_fixed_first_non_missing
      ⟨["Kundenummer","Navn","CAT"],
        [[some "1", none, some "J"], [some "1", some "Bo", some "N"]]⟩
      "Kundenummer" "1" "Navn"
      [[some "1", none, some "J"], [some "1", some "Bo", some "N"]]
      (by decide) (by decide) (by decide)⟩

/-! ### Lemmas about dropping a column by label -/

theorem cell_dropByName_ne (cols : List String) (n : String) (r : List Val)
    {c : String} (hc : c ≠ n) :
    cell (cols.filter (fun x => x != n)) (dropRow cols n r) c = cell cols r c := by
  induction cols generalizing r with
  | nil => rfl
  | cons d cs ih =>
    cases r with
    | nil =>
      rw [cell_nil_row]
      have hz : dropRow (d :: cs) n [] = [] := by simp [dropRow]
      rw [hz]
      exact cell_nil_row _ _
    | cons v rs =>
      by_cases hd : d = n
      · subst hd
        have h1 : (d :: cs).filter (fun x => x != d) = cs.filter (fun x => x != d) := by
          simp [List.filter_cons]
        have h2 : dropRow (d :: cs) d (v :: rs) = dropRow cs d rs := by
          simp [dropRow, List.filter_cons]
        rw [h1, h2, ih rs, cell_cons_ne hc]
      · have h1 : (d :: cs).filter (fun x => x != n) = d :: cs.filter (fun x => x != n) := by
          simp [List.filter_cons, hd]
        have h2 : dropRow (d :: cs) n (v :: rs) = v :: dropRow cs n rs := by
          simp [dropRow, List.filter_cons, hd]
        rw [h1, h2]
        by_cases hcd : c = d
        · subst hcd
          rw [cell_cons_self, cell_cons_self]
        · rw [cell_cons_ne hcd, cell_cons_ne hcd, ih rs]

/-- C3 counterexample: a file whose category label equals the third column's
name.  `df[label] = "J"` overwrites the third column in place and
`df.drop(columns=[df.columns[2]])` then removes it, so no column named after
the category label survives although the file has a data row. -/
theorem C3_counterexample :
    category_value (⟨["A", "B", "K"], [[some "1", some "2", some "K"]]⟩ : Table) = some "K"
    ∧ "K" ∉ (processFile ⟨["A", "B", "K"], [[some "1", some "2", some "K"]]⟩ "K").cols
    ∧ (processFile ⟨["A", "B", "K"], [[some "1", some "2", some "K"]]⟩ "K").rows.length = 1
    ∧ cell (processFile ⟨["A", "B", "K"], [[some "1", some "2", some "K"]]⟩ "K").cols
        ((processFile ⟨["A", "B", "K"], [[some "1", some "2", some "K"]]⟩ "K").rows.headD [])
        "K" = none := by
  decide

/-- C3 (amended): for a non-empty extract file with at least three columns
whose category label differs from the third column's name, the processing step
drops the third column and gives every row of the file the value "J" in the
column named after the category label. -/
theorem C3_processed_file_flags (f : Table) (cat : String)
    (h3 : 3 ≤ f.cols.length) (hwf : f.WF)
    (hcat : category_value f = some cat)
    (hne : cat ≠ f.cols.getD 2 "") :
    f.cols.getD 2 "" ∉ (processFile f cat).cols
    ∧ (processFile f cat).rows.length = f.rows.length
    ∧ cat ∈ (processFile f cat).cols
    ∧ ∀ r ∈ (processFile f cat).rows, cell (processFile f cat).cols r cat = some "J" := by
  obtain ⟨φ, hrows, hself, hother, hlen⟩ := setColF_spec f cat (fun _ => some "J")
  have hcols : (setConst f cat (some "J")).cols = f.cols
      ∨ (setConst f cat (some "J")).cols = f.cols ++ [cat] := by
    unfold setConst setColF
    cases h : colIdx f.cols cat with
    | none => exact Or.inr rfl
    | some i => exact Or.inl rfl
  have hthird : (setConst f cat (some "J")).cols.getD 2 "" = f.cols.getD 2 "" := by
    rcases hcols with h | h
    · rw [h]
    · rw [h, List.getD_append _ _ _ _ (by omega)]
  have hcatmem : cat ∈ (setConst f cat (some "J")).cols := by
    unfold setConst setColF
    cases h : colIdx f.cols cat with
    | none => simp
    | some i =>
      have : cat ∈ f.cols := (colIdx_isSome_iff f.cols cat).mp (by rw [h]; rfl)
      simpa using this
  have hres : processFile f cat
      = dropByName (setConst f cat (some "J")) (f.cols.getD 2 "") := by
    show dropByName (setConst f cat (some "J"))
        ((setConst f cat (some "J")).cols.getD 2 "") = _
    rw [hthird]
  rw [hres]
  refine ⟨?_, ?_, ?_, ?_⟩
  · unfold dropByName
    simp only [List.mem_filter, bne_iff_ne]
    rintro ⟨-, hcontra⟩
    exact hcontra rfl
  · unfold dropByName setConst
    simp only [List.length_map]
    rw [hrows, List.length_map]
  · unfold dropByName
    simp only [List.mem_filter, bne_iff_ne]
    exact ⟨hcatmem, hne⟩
  · intro r hr
    unfold dropByName at hr ⊢
    simp only [List.mem_map] at hr
    obtain ⟨r1, hr1, rfl⟩ := hr
    rw [cell_dropByName_ne _ _ _ hne]
    unfold setConst at hr1
    rw [hrows] at hr1
    obtain ⟨r0, hr0, rfl⟩ := List.mem_map.mp hr1
    exact hself r0 (hwf r0 hr0)

theorem C3_processed_file_flags_witness :
    ((3 ≤ (⟨["Kundenummer", "Navn", "Kat", "X"],
        [[some "1", some "A", some "RETAIL", some "z"]]⟩ : Table).cols.length
    ∧ (⟨["Kundenummer", "Navn", "Kat", "X"],
        [[some "1", some "A", some "RETAIL", some "z"]]⟩ : Table).WF
    ∧ category_value ⟨["Kundenummer", "Navn", "Kat", "X"],
        [[some "1", some "A", some "RETAIL", some "z"]]⟩ = some "RETAIL"
    ∧ "RETAIL" ≠ (⟨["Kundenummer", "Navn", "Kat", "X"],
        [[some "1", some "A", some "RETAIL", some "z"]]⟩ : Table).cols.getD 2 "")
    ∧ ((⟨["Kundenummer", "Navn", "Kat", "X"],
          [[some "1", some "A", some "RETAIL", some "z"]]⟩ : Table).cols.getD 2 ""
        ∉ (processFile ⟨["Kundenummer", "Navn", "Kat", "X"],
            [[some "1", some "A", some "RETAIL", some "z"]]⟩ "RETAIL").cols
      ∧ (processFile ⟨["Kundenummer", "Navn", "Kat", "X"],
          [[some "1", some "A", some "RETAIL", some "z"]]⟩ "RETAIL").rows.length
        = (⟨["Kundenummer", "Navn", "Kat", "X"],
            [[some "1", some "A", some "RETAIL", some "z"]]⟩ : Table).rows.length
      ∧ "RETAIL" ∈ (processFile ⟨["Kundenummer", "Navn", "Kat", "X"],
          [[some "1", some "A", some "RETAIL", some "z"]]⟩ "RETAIL").cols
      ∧ ∀ r ∈ (processFile ⟨["Kundenummer", "Navn", "Kat", "X"],
          [[some "1", some "A", some "RETAIL", some "z"]]⟩ "RETAIL").rows,
          cell (processFile ⟨["Kundenummer", "Navn", "Kat", "X"],
            [[some "1", some "A", some "RETAIL", some "z"]]⟩ "RETAIL").cols r "RETAIL"
            = some "J")) :=
  ⟨⟨by decide, by decide, by decide, by decide⟩,
    C3_processed_file_flags
      ⟨["Kundenummer", "Navn", "Kat", "X"], [[some "1", some "A", some "RETAIL", some "z"]]⟩
      "RETAIL" (by decide) (by decide) (by decide) (by decide)⟩

theorem addMissingCols_cons (t : Table) (c : String) (cs : List String) :
    addMissingCols t (c :: cs)
      = addMissingCols
          (if c ∈ t.cols then t
           else ⟨t.cols ++ [c], t.rows.map (fun r => r ++ [some "N"])⟩) cs := by
  unfold addMissingCols
  rw [List.foldl_cons]

theorem addMissingCols_spec (t : Table) (cs : List String) :
    addMissingCols t cs
      = ⟨t.cols ++ newOf t.cols cs,
         t.rows.map (fun r => r ++ List.replicate (newOf t.cols cs).length (some "N"))⟩ := by
  induction cs generalizing t with
  | nil =>
    show t = _
    cases t with
    | mk cols rows => simp [newOf]
  | cons c cs ih =>
    rw [addMissingCols_cons]
    by_cases hc : c ∈ t.cols
    · rw [if_pos hc, ih]
      simp [newOf, hc]
    · rw [if_neg hc, ih]
      simp only [newOf, if_neg hc]
      congr 1
      · rw [List.append_assoc]
        rfl
      · rw [List.map_map]
        apply List.map_congr_left
        intro r hr
        simp only [Function.comp_apply, List.length_cons, List.replicate_succ]
        rw [List.append_assoc]
        rfl

theorem newOf_sub_nil (base : List String) (cs : List String)
    (h : ∀ c ∈ cs, c ∈ base) : newOf base cs = [] := by
  induction cs with
  | nil => rfl
  | cons c cs ih =>
    rw [newOf, if_pos (h c (List.mem_cons_self c cs))]
    exact ih (fun x hx => h x (List.mem_cons_of_mem c hx))

theorem newOf_congr (base base' : List String) (cs : List String)
    (h : ∀ c ∈ cs, (c ∈ base ↔ c ∈ base')) : newOf base cs = newOf base' cs := by
  induction cs generalizing base base' with
  | nil => rfl
  | cons c cs ih =>
    have hc := h c (List.mem_cons_self c cs)
    by_cases hm : c ∈ base
    · rw [newOf, if_pos hm, newOf, if_pos (hc.mp hm)]
      exact ih base base' (fun x hx => h x (List.mem_cons_of_mem c hx))
    · rw [newOf, if_neg hm, newOf, if_neg (fun hh => hm (hc.mpr hh))]
      congr 1
      apply ih
      intro x hx
      have := h x (List.mem_cons_of_mem c hx)
      simp [List.mem_append, this]

theorem newOf_append (base cs ds : List String) :
    newOf base (cs ++ ds) = newOf base cs ++ newOf (base ++ newOf base cs) ds := by
  induction cs generalizing base with
  | nil => simp [newOf]
  | cons c cs ih =>
    by_cases hc : c ∈ base
    · rw [List.cons_append, newOf, if_pos hc, ih, newOf, if_pos hc]
    · rw [List.cons_append, newOf, if_neg hc, ih, newOf, if_neg hc]
      rw [List.cons_append]
      congr 2
      rw [List.append_assoc]
      rfl

theorem newOf_eq_filter (base : List String) (cs : List String) (h : cs.Nodup) :
    newOf base cs = cs.filter (fun c => decide (c ∉ base)) := by
  induction cs generalizing base with
  | nil => rfl
  | cons c cs ih =>
    obtain ⟨hc, hnd⟩ := List.nodup_cons.mp h
    by_cases hm : c ∈ base
    · rw [newOf, if_pos hm, List.filter_cons, if_neg (by simp [hm]), ih base hnd]
    · rw [newOf, if_neg hm, List.filter_cons, if_pos (by simp [hm])]
      congr 1
      rw [newOf_congr (base ++ [c]) base cs
        (fun x hx => by
          have hxc : x ≠ c := fun hh => hc (hh ▸ hx)
          simp [List.mem_append, hxc])]
      exact ih base hnd

/-- Reading a frame's own header back through `cell` restores the row. -/
theorem map_cell_self (cs : List String) (r : List Val)
    (hnd : cs.Nodup) (hr : r.length = cs.length) :
    cs.map (fun c => cell cs r c) = r := by
  induction cs generalizing r with
  | nil =>
    cases r with
    | nil => rfl
    | cons v rs => simp at hr
  | cons d ds ih =>
    cases r with
    | nil => simp at hr
    | cons v rs =>
      obtain ⟨hd, hnd'⟩ := List.nodup_cons.mp hnd
      have hr' : rs.length = ds.length := by simpa using hr
      rw [List.map_cons, cell_cons_self]
      congr 1
      rw [List.map_congr_left (fun c hc => cell_cons_ne (fun hh : c = d => hd (hh ▸ hc)) ds v rs)]
      exact ih rs hnd' hr'

/-- Reading a cell of a row that was built by mapping the header. -/
theorem cell_map_header (cs : List String) (g : String → Val) {c : String}
    (hc : c ∈ cs) : cell cs (cs.map g) c = g c := by
  obtain ⟨i, hidx⟩ := Option.isSome_iff_exists.mp ((colIdx_isSome_iff cs c).mpr hc)
  obtain ⟨hi, hname⟩ := colIdx_spec cs c i hidx
  rw [cell_of_colIdx hidx, getD_map_of_lt _ _ _ hi _ "", hname]

/-- Reading a cell of a row extended on the right with a constant fill. -/
theorem cell_ext (Xcols extra : List String) (r : List Val) (v : Val)
    (hr : r.length = Xcols.length) (c : String) :
    cell (Xcols ++ extra) (r ++ List.replicate extra.length v) c
      = if c ∈ Xcols then cell Xcols r c
        else if c ∈ extra then v else none := by
  by_cases h1 : c ∈ Xcols
  · rw [if_pos h1]
    obtain ⟨i, hidx⟩ := Option.isSome_iff_exists.mp ((colIdx_isSome_iff Xcols c).mpr h1)
    obtain ⟨hi, _⟩ := colIdx_spec Xcols c i hidx
    rw [cell_of_colIdx (by rw [colIdx_append_left h1, hidx]), cell_of_colIdx hidx]
    exact List.getD_append _ _ _ _ (by omega)
  · rw [if_neg h1]
    by_cases h2 : c ∈ extra
    · rw [if_pos h2]
      obtain ⟨j, hjdx⟩ := Option.isSome_iff_exists.mp ((colIdx_isSome_iff extra c).mpr h2)
      obtain ⟨hj, _⟩ := colIdx_spec extra c j hjdx
      have hidx2 : colIdx (Xcols ++ extra) c = some (j + Xcols.length) := by
        rw [colIdx_append_right h1, hjdx]
        rfl
      rw [cell_of_colIdx hidx2, List.getD_eq_getElem?_getD,
        List.getElem?_append_right (by omega)]
      have : j + Xcols.length - r.length = j := by omega
      rw [this]
      simp [List.getElem?_replicate, hj]
    · rw [if_neg h2]
      apply cell_of_not_mem
      simp only [List.mem_append]
      rintro (h | h)
      · exact h1 h
      · exact h2 h

theorem setConst_eq (t : Table) (c : String) (v : Val) :
    setConst t c v = setColF t c (fun _ => v) := rfl

theorem setColF_cols (t : Table) (c : String) (f : List Val → Val) :
    (setColF t c f).cols = t.cols ∧ c ∈ t.cols
    ∨ (setColF t c f).cols = t.cols ++ [c] ∧ c ∉ t.cols := by
  unfold setColF
  cases h : colIdx t.cols c with
  | some i =>
    left
    exact ⟨rfl, (colIdx_isSome_iff t.cols c).mp (by rw [h]; rfl)⟩
  | none =>
    right
    exact ⟨rfl, (colIdx_eq_none_iff t.cols c).mp h⟩

theorem setColF_WF (t : Table) (c : String) (f : List Val → Val) (hwf : t.WF) :
    (setColF t c f).WF := by
  obtain ⟨φ, hrows, _, _, hlen⟩ := setColF_spec t c f
  intro r hr
  rw [hrows] at hr
  obtain ⟨r0, hr0, rfl⟩ := List.mem_map.mp hr
  exact hlen r0 (hwf r0 hr0)

theorem setColF_nodup (t : Table) (c : String) (f : List Val → Val)
    (hnd : t.cols.Nodup) : (setColF t c f).cols.Nodup := by
  rcases setColF_cols t c f with ⟨h, _⟩ | ⟨h, hc⟩
  · rw [h]
    exact hnd
  · rw [h, List.nodup_append]
    refine ⟨hnd, List.nodup_singleton c, ?_⟩
    intro a ha hb
    rw [List.mem_singleton] at hb
    exact hc (hb ▸ ha)

theorem setColF_rows_length (t : Table) (c : String) (f : List Val → Val) :
    (setColF t c f).rows.length = t.rows.length := by
  obtain ⟨φ, hrows, _, _, _⟩ := setColF_spec t c f
  rw [hrows, List.length_map]

theorem dropRow_length (cols : List String) (n : String) (r : List Val)
    (hr : r.length = cols.length) :
    (dropRow cols n r).length = (cols.filter (fun x => x != n)).length := by
  induction cols generalizing r with
  | nil =>
    cases r with
    | nil => rfl
    | cons v rs => simp at hr
  | cons d cs ih =>
    cases r with
    | nil => simp at hr
    | cons v rs =>
      have hr' : rs.length = cs.length := by simpa using hr
      by_cases hd : (d != n) = true
      · have h2 : dropRow (d :: cs) n (v :: rs) = v :: dropRow cs n rs := by
          simp [dropRow, List.filter_cons, hd]
        rw [h2, List.filter_cons, if_pos hd]
        simp [ih rs hr']
      · have h2 : dropRow (d :: cs) n (v :: rs) = dropRow cs n rs := by
          simp [dropRow, List.filter_cons, hd]
        rw [h2, List.filter_cons, if_neg hd]
        exact ih rs hr'

theorem dropByName_WF (t : Table) (n : String) (hwf : t.WF) : (dropByName t n).WF := by
  intro r hr
  unfold dropByName at hr ⊢
  simp only [List.mem_map] at hr
  obtain ⟨r0, hr0, rfl⟩ := hr
  exact dropRow_length t.cols n r0 (hwf r0 hr0)

theorem dropByName_nodup (t : Table) (n : String) (hnd : t.cols.Nodup) :
    (dropByName t n).cols.Nodup := hnd.filter _

theorem processFile_preserves (f : Table) (cat : String)
    (hwf : f.WF) (hnd : f.cols.Nodup) (h3 : 3 ≤ f.cols.length) :
    (processFile f cat).WF ∧ (processFile f cat).cols.Nodup
    ∧ (processFile f cat).rows.length = f.rows.length
    ∧ (processFile f cat).cols ≠ [] := by
  have hres : processFile f cat
      = dropByName (setColF f cat (fun _ => some "J"))
          ((setColF f cat (fun _ => some "J")).cols.getD 2 "") := rfl
  set f1 := setColF f cat (fun _ => some "J") with hf1
  have hf1wf : f1.WF := setColF_WF f cat _ hwf
  have hf1nd : f1.cols.Nodup := setColF_nodup f cat _ hnd
  have hf1len : 3 ≤ f1.cols.length := by
    rcases setColF_cols f cat (fun _ => some "J") with ⟨h, _⟩ | ⟨h, _⟩
    · rw [← hf1] at h
      rw [h]
      exact h3
    · rw [← hf1] at h
      rw [h, List.length_append]
      omega
  rw [hres]
  refine ⟨dropByName_WF f1 _ hf1wf, dropByName_nodup f1 _ hf1nd, ?_, ?_⟩
  · show (f1.rows.map _).length = f.rows.length
    rw [List.length_map, hf1, setColF_rows_length]
  · have h0 : (0 : Nat) < f1.cols.length := by omega
    have h2 : (2 : Nat) < f1.cols.length := by omega
    have hgd0 : f1.cols.getD 0 "" = f1.cols[0] := by
      rw [List.getD_eq_getElem?_getD, List.getElem?_eq_getElem h0]
      rfl
    have hgd2 : f1.cols.getD 2 "" = f1.cols[2] := by
      rw [List.getD_eq_getElem?_getD, List.getElem?_eq_getElem h2]
      rfl
    have hne02 : f1.cols.getD 0 "" ≠ f1.cols.getD 2 "" := by
      rw [hgd0, hgd2]
      intro hh
      have := (hf1nd.getElem_inj_iff).mp hh
      omega
    have hmem : f1.cols.getD 0 "" ∈ (dropByName f1 (f1.cols.getD 2 "")).cols := by
      unfold dropByName
      rw [List.mem_filter]
      exact ⟨getD_mem_of_lt _ _ h0 _, by simpa using hne02⟩
    exact List.ne_nil_of_mem hmem

/-- `mergeStep` with its let-bindings spelled out. -/
theorem mergeStep_def (merged d : Table) :
    mergeStep merged d
      = concatT (addMissingCols merged (addMissingCols d merged.cols).cols)
          (if (addMissingCols merged (addMissingCols d merged.cols).cols).rows.isEmpty
              || (addMissingCols merged (addMissingCols d merged.cols).cols).cols.isEmpty
           then addMissingCols d merged.cols
           else reindex (addMissingCols d merged.cols)
                  (addMissingCols merged (addMissingCols d merged.cols).cols).cols) := rfl

/-- Merging a first file into the empty frame yields that file's frame. -/
theorem mergeStep_empty (d : Table) (hnd : d.cols.Nodup) (hwf : d.WF) :
    mergeStep ⟨[], []⟩ d = d := by
  rw [mergeStep_def]
  have hd2 : addMissingCols d (Table.mk [] []).cols = d := rfl
  rw [hd2]
  have hm2 : addMissingCols ⟨[], []⟩ d.cols = ⟨d.cols, []⟩ := by
    rw [addMissingCols_spec]
    have : newOf (Table.mk [] []).cols d.cols = d.cols := by
      rw [show (Table.mk [] []).cols = [] from rfl, newOf_eq_filter [] d.cols hnd]
      simp
    simp only [this]
    rfl
  rw [hm2]
  have hcond : ((Table.mk d.cols []).rows.isEmpty
      || (Table.mk d.cols []).cols.isEmpty) = true := rfl
  rw [if_pos hcond]
  show concatT ⟨d.cols, []⟩ d = d
  unfold concatT
  have hfilt : d.cols.filter (fun c => decide (c ∉ (Table.mk d.cols []).cols)) = [] := by
    rw [List.filter_eq_nil_iff]
    intro c hc
    simp only [decide_eq_true_eq]
    exact fun hh => hh hc
  simp only [hfilt, List.append_nil, List.map_nil, List.nil_append]
  have : d.rows.map (fun r => d.cols.map (fun c => cell d.cols r c)) = d.rows := by
    rw [List.map_congr_left (fun r hr => map_cell_self d.cols r hnd (hwf r hr))]
    exact List.map_id d.rows
  rw [this]

theorem nodup_union_cols (X Y : List String) (hX : X.Nodup) (hY : Y.Nodup) :
    (X ++ Y.filter (fun c => decide (c ∉ X))).Nodup := by
  rw [List.nodup_append]
  refine ⟨hX, hY.filter _, ?_⟩
  intro a haX haY
  have h := (List.mem_filter.mp haY).2
  simp only [decide_eq_true_eq] at h
  exact h haX

/-- The second `mergeStep` of a two-file merge, in closed form: the merged
columns are the first file's followed by the second file's new ones; the first
file's rows are extended with "N" on the right; the second file's rows are
"N"-extended for the first file's missing columns and then label-aligned to
the merged header. -/
theorem mergeStep_pair (A' B' : Table)
    (hAnd : A'.cols.Nodup) (hBnd : B'.cols.Nodup)
    (hAwf : A'.WF) (hBwf : B'.WF)
    (hArows : A'.rows ≠ []) (hAne : A'.cols ≠ []) :
    mergeStep A' B'
      = ⟨A'.cols ++ B'.cols.filter (fun c => decide (c ∉ A'.cols)),
         A'.rows.map (fun r =>
           r ++ List.replicate
             (B'.cols.filter (fun c => decide (c ∉ A'.cols))).length (some "N"))
         ++ B'.rows.map (fun r =>
           (A'.cols ++ B'.cols.filter (fun c => decide (c ∉ A'.cols))).map
             (fun c => cell
               (B'.cols ++ A'.cols.filter (fun c => decide (c ∉ B'.cols)))
               (r ++ List.replicate
                 (A'.cols.filter (fun c => decide (c ∉ B'.cols))).length (some "N"))
               c))⟩ := by
  set DAB := B'.cols.filter (fun c => decide (c ∉ A'.cols)) with hDAB
  set DBA := A'.cols.filter (fun c => decide (c ∉ B'.cols)) with hDBA
  set M := A'.cols ++ DAB with hM
  have hd2 : addMissingCols B' A'.cols
      = ⟨B'.cols ++ DBA,
         B'.rows.map (fun r => r ++ List.replicate DBA.length (some "N"))⟩ := by
    rw [addMissingCols_spec, newOf_eq_filter B'.cols A'.cols hAnd]
  have hnewOf : newOf A'.cols (B'.cols ++ DBA) = DAB := by
    rw [newOf_append, newOf_eq_filter A'.cols B'.cols hBnd, ← hDAB]
    rw [newOf_sub_nil]
    · exact List.append_nil DAB
    · intro c hc
      have := (List.mem_filter.mp hc).1
      exact List.mem_append_left _ this
  have hm2 : addMissingCols A' (B'.cols ++ DBA)
      = ⟨M, A'.rows.map (fun r => r ++ List.replicate DAB.length (some "N"))⟩ := by
    rw [addMissingCols_spec, hnewOf]
  rw [mergeStep_def, hd2]
  show concatT (addMissingCols A' (B'.cols ++ DBA)) _ = _
  rw [hm2]
  have hextne : A'.rows.map
      (fun r => r ++ List.replicate DAB.length (some "N")) ≠ [] := by
    simpa using hArows
  have hMne : M ≠ [] := by
    rw [hM]
    intro hh
    rw [List.append_eq_nil] at hh
    exact hAne hh.1
  have hcond : ¬ (((Table.mk M (A'.rows.map
      (fun r => r ++ List.replicate DAB.length (some "N")))).rows.isEmpty
      || (Table.mk M (A'.rows.map
      (fun r => r ++ List.replicate DAB.length (some "N")))).cols.isEmpty) = true) := by
    simp only [Bool.or_eq_true, List.isEmpty_iff]
    rintro (hh | hh)
    · exact hextne hh
    · exact hMne hh
  rw [if_neg hcond]
  show concatT ⟨M, _⟩ (reindex ⟨B'.cols ++ DBA, _⟩ M) = _
  unfold reindex concatT
  have hMnd : M.Nodup := nodup_union_cols A'.cols B'.cols hAnd hBnd
  have hfilt : M.filter (fun c => decide (c ∉ M)) = [] := by
    rw [List.filter_eq_nil_iff]
    intro c hc
    simp only [decide_eq_true_eq]
    exact fun hh => hh hc
  simp only []
  rw [hfilt, List.append_nil]
  congr 1
  rw [List.map_map]
  congr 1
  · -- first block: reprojection of the extended A-rows is the identity
    apply List.map_congr_left
    intro r hr
    simp only [Function.comp_apply]
    have hrlen : (r ++ List.replicate DAB.length (some "N")).length = M.length := by
      rw [List.length_append, List.length_replicate, hM, List.length_append, hAwf r hr]
    exact map_cell_self M _ hMnd hrlen
  · -- second block: reprojection of already-aligned rows is the identity
    rw [List.map_map, List.map_map]
    apply List.map_congr_left
    intro r hr
    simp only [Function.comp_apply]
    apply List.map_congr_left
    intro c hc
    exact cell_map_header M _ hc

theorem cell_pair_left (A' B' : Table) (r : List Val) (hr : r.length = A'.cols.length)
    (c : String) :
    cell (A'.cols ++ B'.cols.filter (fun c => decide (c ∉ A'.cols)))
      (r ++ List.replicate
        (B'.cols.filter (fun c => decide (c ∉ A'.cols))).length (some "N")) c
      = pairVal A' B' r c := by
  rw [cell_ext _ _ _ _ hr]
  unfold pairVal
  by_cases h1 : c ∈ A'.cols
  · rw [if_pos h1, if_pos h1]
  · rw [if_neg h1, if_neg h1]
    by_cases h2 : c ∈ B'.cols
    · rw [if_pos h2, if_pos (List.mem_filter.mpr ⟨h2, by simp [h1]⟩)]
    · rw [if_neg h2, if_neg (fun hh => h2 (List.mem_filter.mp hh).1)]

theorem cell_pair_right (A' B' : Table) (r : List Val) (hr : r.length = B'.cols.length)
    (c : String) :
    cell (A'.cols ++ B'.cols.filter (fun c => decide (c ∉ A'.cols)))
      ((A'.cols ++ B'.cols.filter (fun c => decide (c ∉ A'.cols))).map
        (fun c => cell
          (B'.cols ++ A'.cols.filter (fun c => decide (c ∉ B'.cols)))
          (r ++ List.replicate
            (A'.cols.filter (fun c => decide (c ∉ B'.cols))).length (some "N")) c)) c
      = pairVal B' A' r c := by
  by_cases hcM : c ∈ A'.cols ++ B'.cols.filter (fun c => decide (c ∉ A'.cols))
  · rw [cell_map_header _ _ hcM, cell_ext _ _ _ _ hr]
    unfold pairVal
    by_cases h1 : c ∈ B'.cols
    · rw [if_pos h1, if_pos h1]
    · rw [if_neg h1, if_neg h1]
      have hcA : c ∈ A'.cols := by
        rcases List.mem_append.mp hcM with h | h
        · exact h
        · exact absurd (List.mem_filter.mp h).1 h1
      rw [if_pos (List.mem_filter.mpr ⟨hcA, by simp [h1]⟩), if_pos hcA]
  · rw [cell_of_not_mem hcM]
    unfold pairVal
    have hA : c ∉ A'.cols := fun hh => hcM (List.mem_append_left _ hh)
    have hB : c ∉ B'.cols := fun hh =>
      hcM (List.mem_append_right _ (List.mem_filter.mpr ⟨hh, by simp [hA]⟩))
    rw [if_neg hB, if_neg hA]

theorem processOne_merged (acc : Table × BankSummary) (n : String) (f : Table)
    (cat : String) (hrows : f.rows ≠ []) (h3 : 3 ≤ f.cols.length)
    (hcat : category_value f = some cat) :
    processOne acc (n, f)
      = (mergeStep acc.1 (processFile f cat),
         { acc.2 with merged := acc.2.merged ++ [cat] }) := by
  unfold processOne
  rw [if_neg (show ¬ ((n, f).2.rows.isEmpty = true) by simpa using hrows)]
  rw [if_neg (show ¬ ((n, f).2.cols.length < 3) by simp only []; omega)]
  rw [show category_value (n, f).2 = some cat from hcat]

theorem mergedPair_eq (A B : Table) (nA nB : String) (catA catB : String)
    (hAwf : A.WF) (hAnd : A.cols.Nodup) (hA3 : 3 ≤ A.cols.length)
    (hArows : A.rows ≠ []) (hcatA : category_value A = some catA)
    (hBrows : B.rows ≠ []) (hB3 : 3 ≤ B.cols.length)
    (hcatB : category_value B = some catB) :
    mergedPair (nA, A) (nB, B)
      = mergeStep (processFile A catA) (processFile B catB) := by
  unfold mergedPair process_csv_files_for_bank
  rw [List.foldl_cons, processOne_merged _ _ _ catA hArows hA3 hcatA,
    List.foldl_cons, processOne_merged _ _ _ catB hBrows hB3 hcatB,
    List.foldl_nil]
  show mergeStep (mergeStep ⟨[], []⟩ (processFile A catA)) (processFile B catB) = _
  congr 1
  obtain ⟨hwf, hnd, -, -⟩ := processFile_preserves A catA hAwf hAnd hA3
  exact mergeStep_empty _ hnd hwf

/-- Full characterization of the two-file merged frame: its column set is the
union of the two processed files' columns, and its rows are the two files'
rows carrying the order-independent valuation `pairVal`. -/
theorem mergedPair_cells (A B : Table) (nA nB : String) (catA catB : String)
    (hAwf : A.WF) (hAnd : A.cols.Nodup) (hA3 : 3 ≤ A.cols.length)
    (hArows : A.rows ≠ []) (hcatA : category_value A = some catA)
    (hBwf : B.WF) (hBnd : B.cols.Nodup) (hB3 : 3 ≤ B.cols.length)
    (hBrows : B.rows ≠ []) (hcatB : category_value B = some catB) :
    ((mergedPair (nA, A) (nB, B)).cols.toFinset
        = (processFile A catA).cols.toFinset ∪ (processFile B catB).cols.toFinset)
    ∧ ∃ φA φB,
        (mergedPair (nA, A) (nB, B)).rows
          = (processFile A catA).rows.map φA ++ (processFile B catB).rows.map φB
        ∧ (∀ r ∈ (processFile A catA).rows, ∀ c,
            cell (mergedPair (nA, A) (nB, B)).cols (φA r) c
              = pairVal (processFile A catA) (processFile B catB) r c)
        ∧ (∀ r ∈ (processFile B catB).rows, ∀ c,
            cell (mergedPair (nA, A) (nB, B)).cols (φB r) c
              = pairVal (processFile B catB) (processFile A catA) r c) := by
  obtain ⟨hA'wf, hA'nd, hA'len, hA'ne⟩ := processFile_preserves A catA hAwf hAnd hA3
  obtain ⟨hB'wf, hB'nd, hB'len, hB'ne⟩ := processFile_preserves B catB hBwf hBnd hB3
  have hA'rows : (processFile A catA).rows ≠ [] := by
    intro hh
    rw [← List.length_eq_zero] at hh
    rw [hh] at hA'len
    exact hArows (List.length_eq_zero.mp hA'len.symm)
  have heq : mergedPair (nA, A) (nB, B)
      = mergeStep (processFile A catA) (processFile B catB) :=
    mergedPair_eq A B nA nB catA catB hAwf hAnd hA3 hArows hcatA hBrows hB3 hcatB
  rw [heq, mergeStep_pair _ _ hA'nd hB'nd hA'wf hB'wf hA'rows hA'ne]
  constructor
  · ext c
    simp only [List.toFinset_append, Finset.mem_union, List.mem_toFinset, List.mem_filter,
      decide_eq_true_eq]
    tauto
  · refine ⟨_, _, rfl, ?_, ?_⟩
    · intro r hr c
      exact cell_pair_left _ _ r (hA'wf r hr) c
    · intro r hr c
      exact cell_pair_right _ _ r (hB'wf r hr) c

/-- C2: merging two extract files of one bank in either order and then
reconciling duplicates yields the same set of columns, the same dynamic-column
classification, the same customer keys, and — in the reconciled output row of
every customer key — the same "J"/"N" value in every dynamic column (category
columns included); only row and column order may differ. -/
theorem C2_merge_order_independent (A B : Table) (nA nB catA catB : String)
    (hAwf : A.WF) (hAnd : A.cols.Nodup) (hA3 : 3 ≤ A.cols.length)
    (hArows : A.rows ≠ []) (hcatA : category_value A = some catA)
    (hBwf : B.WF) (hBnd : B.cols.Nodup) (hB3 : 3 ≤ B.cols.length)
    (hBrows : B.rows ≠ []) (hcatB : category_value B = some catB) :
    (mergedPair (nA, A) (nB, B)).cols.toFinset
        = (mergedPair (nB, B) (nA, A)).cols.toFinset
    ∧ (∀ c, c ∈ identify_dynamic_columns (mergedPair (nA, A) (nB, B))
          ↔ c ∈ identify_dynamic_columns (mergedPair (nB, B) (nA, A)))
    ∧ (∀ key k, (∃ r ∈ (mergedPair (nA, A) (nB, B)).rows,
            cell (mergedPair (nA, A) (nB, B)).cols r key = some k)
          ↔ (∃ r ∈ (mergedPair (nB, B) (nA, A)).rows,
            cell (mergedPair (nB, B) (nA, A)).cols r key = some k))
    ∧ (∀ key k, (∃ r ∈ (mergedPair (nA, A) (nB, B)).rows,
            cell (mergedPair (nA, A) (nB, B)).cols r key = some k) →
        merge_group (mergedPair (nA, A) (nB, B)).cols
            (identify_dynamic_columns (mergedPair (nA, A) (nB, B)))
            (groupFor (mergedPair (nA, A) (nB, B)) key k)
          ∈ (merge_grouped_duplicates (mergedPair (nA, A) (nB, B)) key).rows
        ∧ merge_group (mergedPair (nB, B) (nA, A)).cols
            (identify_dynamic_columns (mergedPair (nB, B) (nA, A)))
            (groupFor (mergedPair (nB, B) (nA, A)) key k)
          ∈ (merge_grouped_duplicates (mergedPair (nB, B) (nA, A)) key).rows)
    ∧ (∀ key k c, c ∈ identify_dynamic_columns (mergedPair (nA, A) (nB, B)) →
        cell (mergedPair (nA, A) (nB, B)).cols
          (merge_group (mergedPair (nA, A) (nB, B)).cols
            (identify_dynamic_columns (mergedPair (nA, A) (nB, B)))
            (groupFor (mergedPair (nA, A) (nB, B)) key k)) c
        = cell (mergedPair (nB, B) (nA, A)).cols
          (merge_group (mergedPair (nB, B) (nA, A)).cols
            (identify_dynamic_columns (mergedPair (nB, B) (nA, A)))
            (groupFor (mergedPair (nB, B) (nA, A)) key k)) c) := by
  obtain ⟨hcolsAB, φA, φB, hrowsAB, hcA, hcB⟩ :=
    mergedPair_cells A B nA nB catA catB hAwf hAnd hA3 hArows hcatA
      hBwf hBnd hB3 hBrows hcatB
  obtain ⟨hcolsBA, ψB, ψA, hrowsBA, hcB2, hcA2⟩ :=
    mergedPair_cells B A nB nA catB catA hBwf hBnd hB3 hBrows hcatB
      hAwf hAnd hA3 hArows hcatA
  set tAB := mergedPair (nA, A) (nB, B) with htAB
  set tBA := mergedPair (nB, B) (nA, A) with htBA
  set A' := processFile A catA with hA'
  set B' := processFile B catB with hB'
  have hsplitAB : ∀ (P : (String → Val) → Prop),
      (∃ r ∈ tAB.rows, P (fun c => cell tAB.cols r c))
        ↔ ((∃ r ∈ A'.rows, P (fun c => pairVal A' B' r c))
            ∨ (∃ r ∈ B'.rows, P (fun c => pairVal B' A' r c))) := by
    intro P
    rw [hrowsAB]
    constructor
    · rintro ⟨r', hr', hP⟩
      rcases List.mem_append.mp hr' with h | h
      · obtain ⟨r, hr, rfl⟩ := List.mem_map.mp h
        refine Or.inl ⟨r, hr, ?_⟩
        rwa [show (fun c => cell tAB.cols (φA r) c) = (fun c => pairVal A' B' r c)
          from funext (fun c => hcA r hr c)] at hP
      · obtain ⟨r, hr, rfl⟩ := List.mem_map.mp h
        refine Or.inr ⟨r, hr, ?_⟩
        rwa [show (fun c => cell tAB.cols (φB r) c) = (fun c => pairVal B' A' r c)
          from funext (fun c => hcB r hr c)] at hP
    · rintro (⟨r, hr, hP⟩ | ⟨r, hr, hP⟩)
      · refine ⟨φA r, List.mem_append_left _ (List.mem_map_of_mem φA hr), ?_⟩
        rwa [show (fun c => cell tAB.cols (φA r) c) = (fun c => pairVal A' B' r c)
          from funext (fun c => hcA r hr c)]
      · refine ⟨φB r, List.mem_append_right _ (List.mem_map_of_mem φB hr), ?_⟩
        rwa [show (fun c => cell tAB.cols (φB r) c) = (fun c => pairVal B' A' r c)
          from funext (fun c => hcB r hr c)]
  have hsplitBA : ∀ (P : (String → Val) → Prop),
      (∃ r ∈ tBA.rows, P (fun c => cell tBA.cols r c))
        ↔ ((∃ r ∈ B'.rows, P (fun c => pairVal B' A' r c))
            ∨ (∃ r ∈ A'.rows, P (fun c => pairVal A' B' r c))) := by
    intro P
    rw [hrowsBA]
    constructor
    · rintro ⟨r', hr', hP⟩
      rcases List.mem_append.mp hr' with h | h
      · obtain ⟨r, hr, rfl⟩ := List.mem_map.mp h
        refine Or.inl ⟨r, hr, ?_⟩
        rwa [show (fun c => cell tBA.cols (ψB r) c) = (fun c => pairVal B' A' r c)
          from funext (fun c => hcB2 r hr c)] at hP
      · obtain ⟨r, hr, rfl⟩ := List.mem_map.mp h
        refine Or.inr ⟨r, hr, ?_⟩
        rwa [show (fun c => cell tBA.cols (ψA r) c) = (fun c => pairVal A' B' r c)
          from funext (fun c => hcA2 r hr c)] at hP
    · rintro (⟨r, hr, hP⟩ | ⟨r, hr, hP⟩)
      · refine ⟨ψB r, List.mem_append_left _ (List.mem_map_of_mem ψB hr), ?_⟩
        rwa [show (fun c => cell tBA.cols (ψB r) c) = (fun c => pairVal B' A' r c)
          from funext (fun c => hcB2 r hr c)]
      · refine ⟨ψA r, List.mem_append_right _ (List.mem_map_of_mem ψA hr), ?_⟩
        rwa [show (fun c => cell tBA.cols (ψA r) c) = (fun c => pairVal A' B' r c)
          from funext (fun c => hcA2 r hr c)]
  have hallAB : ∀ (P : (String → Val) → Prop),
      (∀ r ∈ tAB.rows, P (fun c => cell tAB.cols r c))
        ↔ ((∀ r ∈ A'.rows, P (fun c => pairVal A' B' r c))
            ∧ (∀ r ∈ B'.rows, P (fun c => pairVal B' A' r c))) := by
    intro P
    rw [hrowsAB]
    constructor
    · intro h
      constructor
      · intro r hr
        have hh := h (φA r) (List.mem_append_left _ (List.mem_map_of_mem φA hr))
        rwa [show (fun c => cell tAB.cols (φA r) c) = (fun c => pairVal A' B' r c)
          from funext (fun c => hcA r hr c)] at hh
      · intro r hr
        have hh := h (φB r) (List.mem_append_right _ (List.mem_map_of_mem φB hr))
        rwa [show (fun c => cell tAB.cols (φB r) c) = (fun c => pairVal B' A' r c)
          from funext (fun c => hcB r hr c)] at hh
    · rintro ⟨h1, h2⟩ r' hr'
      rcases List.mem_append.mp hr' with h | h
      · obtain ⟨r, hr, rfl⟩ := List.mem_map.mp h
        rw [show (fun c => cell tAB.cols (φA r) c) = (fun c => pairVal A' B' r c)
          from funext (fun c => hcA r hr c)]
        exact h1 r hr
      · obtain ⟨r, hr, rfl⟩ := List.mem_map.mp h
        rw [show (fun c => cell tAB.cols (φB r) c) = (fun c => pairVal B' A' r c)
          from funext (fun c => hcB r hr c)]
        exact h2 r hr
  have hallBA : ∀ (P : (String → Val) → Prop),
      (∀ r ∈ tBA.rows, P (fun c => cell tBA.cols r c))
        ↔ ((∀ r ∈ B'.rows, P (fun c => pairVal B' A' r c))
            ∧ (∀ r ∈ A'.rows, P (fun c => pairVal A' B' r c))) := by
    intro P
    rw [hrowsBA]
    constructor
    · intro h
      constructor
      · intro r hr
        have hh := h (ψB r) (List.mem_append_left _ (List.mem_map_of_mem ψB hr))
        rwa [show (fun c => cell tBA.cols (ψB r) c) = (fun c => pairVal B' A' r c)
          from funext (fun c => hcB2 r hr c)] at hh
      · intro r hr
        have hh := h (ψA r) (List.mem_append_right _ (List.mem_map_of_mem ψA hr))
        rwa [show (fun c => cell tBA.cols (ψA r) c) = (fun c => pairVal A' B' r c)
          from funext (fun c => hcA2 r hr c)] at hh
    · rintro ⟨h1, h2⟩ r' hr'
      rcases List.mem_append.mp hr' with h | h
      · obtain ⟨r, hr, rfl⟩ := List.mem_map.mp h
        rw [show (fun c => cell tBA.cols (ψB r) c) = (fun c => pairVal B' A' r c)
          from funext (fun c => hcB2 r hr c)]
        exact h1 r hr
      · obtain ⟨r, hr, rfl⟩ := List.mem_map.mp h
        rw [show (fun c => cell tBA.cols (ψA r) c) = (fun c => pairVal A' B' r c)
          from funext (fun c => hcA2 r hr c)]
        exact h2 r hr
  have hcols : tAB.cols.toFinset = tBA.cols.toFinset := by
    rw [hcolsAB, hcolsBA, Finset.union_comm]
  have hcolsiff : ∀ c, c ∈ tAB.cols ↔ c ∈ tBA.cols := by
    intro c
    rw [← List.mem_toFinset, ← List.mem_toFinset, hcols]
  have hdyn : ∀ c, c ∈ identify_dynamic_columns tAB
      ↔ c ∈ identify_dynamic_columns tBA := by
    intro c
    unfold identify_dynamic_columns identify_dynamic_columns_sampled
    rw [List.mem_filter, List.mem_filter, List.all_eq_true, List.all_eq_true]
    have h1 := hallAB (fun f => isFlagVal (f c) = true)
    have h2 := hallBA (fun f => isFlagVal (f c) = true)
    simp only [] at h1 h2
    rw [h1, h2, hcolsiff c, and_comm (a := ∀ r ∈ A'.rows, isFlagVal (pairVal A' B' r c) = true)]
  have hkeys : ∀ key k, (∃ r ∈ tAB.rows, cell tAB.cols r key = some k)
      ↔ (∃ r ∈ tBA.rows, cell tBA.cols r key = some k) := by
    intro key k
    have h1 := hsplitAB (fun f => f key = some k)
    have h2 := hsplitBA (fun f => f key = some k)
    simp only [] at h1 h2
    rw [h1, h2, or_comm]
  refine ⟨hcols, hdyn, hkeys, ?_, ?_⟩
  · intro key k hk
    constructor
    · rw [mgd_rows]
      exact List.mem_map_of_mem _ ((mem_distinctKeys tAB key k).mpr hk)
    · rw [mgd_rows]
      exact List.mem_map_of_mem _ ((mem_distinctKeys tBA key k).mpr ((hkeys key k).mp hk))
  · intro key k c hc
    have hc2 : c ∈ identify_dynamic_columns tBA := (hdyn c).mp hc
    have hcmAB : c ∈ tAB.cols := dyn_sampled_subset_cols tAB tAB.rows c hc
    have hcmBA : c ∈ tBA.cols := dyn_sampled_subset_cols tBA tBA.rows c hc2
    rw [cell_merge_group_dyn tAB key k c _ hc hcmAB,
      cell_merge_group_dyn tBA key k c _ hc2 hcmBA]
    have hiff : (∃ r ∈ tAB.rows, cell tAB.cols r key = some k ∧ cell tAB.cols r c = some "J")
        ↔ (∃ r ∈ tBA.rows, cell tBA.cols r key = some k ∧ cell tBA.cols r c = some "J") := by
      have h1 := hsplitAB (fun f => f key = some k ∧ f c = some "J")
      have h2 := hsplitBA (fun f => f key = some k ∧ f c = some "J")
      simp only [] at h1 h2
      rw [h1, h2, or_comm]
    by_cases h : ∃ r ∈ tAB.rows, cell tAB.cols r key = some k ∧ cell tAB.cols r c = some "J"
    · rw [if_pos h, if_pos (hiff.mp h)]
    · rw [if_neg h, if_neg (fun hh => h (hiff.mpr hh))]

theorem C2_merge_order_independent_witness :
    (exA.WF ∧ exA.cols.Nodup ∧ 3 ≤ exA.cols.length ∧ exA.rows ≠ []
      ∧ category_value exA = some "RETAIL"
      ∧ exB.WF ∧ exB.cols.Nodup ∧ 3 ≤ exB.cols.length ∧ exB.rows ≠ []
      ∧ category_value exB = some "SAVINGS")
    ∧ ((mergedPair ("a", exA) ("b", exB)).cols.toFinset
          = (mergedPair ("b", exB) ("a", exA)).cols.toFinset
      ∧ (∀ c, c ∈ identify_dynamic_columns (mergedPair ("a", exA) ("b", exB))
            ↔ c ∈ identify_dynamic_columns (mergedPair ("b", exB) ("a", exA)))
      ∧ (∀ key k, (∃ r ∈ (mergedPair ("a", exA) ("b", exB)).rows,
              cell (mergedPair ("a", exA) ("b", exB)).cols r key = some k)
            ↔ (∃ r ∈ (mergedPair ("b", exB) ("a", exA)).rows,
              cell (mergedPair ("b", exB) ("a", exA)).cols r key = some k))
      ∧ (∀ key k, (∃ r ∈ (mergedPair ("a", exA) ("b", exB)).rows,
              cell (mergedPair ("a", exA) ("b", exB)).cols r key = some k) →
          merge_group (mergedPair ("a", exA) ("b", exB)).cols
              (identify_dynamic_columns (mergedPair ("a", exA) ("b", exB)))
              (groupFor (mergedPair ("a", exA) ("b", exB)) key k)
            ∈ (merge_grouped_duplicates (mergedPair ("a", exA) ("b", exB)) key).rows
          ∧ merge_group (mergedPair ("b", exB) ("a", exA)).cols
              (identify_dynamic_columns (mergedPair ("b", exB) ("a", exA)))
              (groupFor (mergedPair ("b", exB) ("a", exA)) key k)
            ∈ (merge_grouped_duplicates (mergedPair ("b", exB) ("a", exA)) key).rows)
      ∧ (∀ key k c, c ∈ identify_dynamic_columns (mergedPair ("a", exA) ("b", exB)) →
          cell (mergedPair ("a", exA) ("b", exB)).cols
            (merge_group (mergedPair ("a", exA) ("b", exB)).cols
              (identify_dynamic_columns (mergedPair ("a", exA) ("b", exB)))
              (groupFor (mergedPair ("a", exA) ("b", exB)) key k)) c
          = cell (mergedPair ("b", exB) ("a", exA)).cols
            (merge_group (mergedPair ("b", exB) ("a", exA)).cols
              (identify_dynamic_columns (mergedPair ("b", exB) ("a", exA)))
              (groupFor (mergedPair ("b", exB) ("a", exA)) key k)) c)) :=
  ⟨⟨by decide, by decide, by decide, by decide, by decide,
    by decide, by decide, by decide, by decide, by decide⟩,
    C2_merge_order_independent exA exB "a" "b" "RETAIL" "SAVINGS"
      (by decide) (by decide) (by decide) (by decide) (by decide)
      (by decide) (by decide) (by decide) (by decide) (by decide)⟩

end DataScraper
